import Mathlib

/-!
Verification development for the weekly-plan task assistant (`src/main.py`).

The Python source is shallowly embedded: Python `str` values are `List Char`,
Python JSON values (`dict`/`list`/`str`/`int`/`bool`/`None`) are the inductive
type `Json`, machine dates are proleptic-Gregorian ordinals (`Int`, day 1 =
0001-01-01, exactly CPython's `date.toordinal`), fallible code returns
`Option` (`none` = an uncaught Python exception), and the two generative-model
calls are an explicit parameter `oracle : List Char → Option (List Char)`
(`none` = a transport error raised by the client library).

Section order: generic string helpers, decimal digits, the `Json` data model
with a serializer and a parser (a faithful executable model of `json.dumps` /
`json.loads` on the JSON fragment the program manipulates: objects, arrays,
strings with simple escapes, integer numbers, booleans, null),
`safe_parse_json`, the ISO-calendar arithmetic (`current_week_id`,
`date.fromisocalendar`, `date.isocalendar`), `weekly_plan_to_by_date`, and the
two mutating request handlers (`ui_action` with `action == "confirm_add"`, and
`api_weekly_add_text`).  Theorems come after all definitions.
-/

/-! ## Python string helpers (Python `str` is modelled as `List Char`) -/

/-- Characters stripped by Python `str.strip()` (the ASCII whitespace set). -/
def isPySpace (c : Char) : Bool :=
  c = ' ' || c = '\t' || c = '\n' || c = '\r' || c = '\x0b' || c = '\x0c'

/-- Drop the longest suffix of characters satisfying `p`. -/
def dropTrail (p : Char → Bool) (s : List Char) : List Char :=
  (s.reverse.dropWhile p).reverse

/-- Python `s.strip()`. -/
def pyStrip (s : List Char) : List Char :=
  dropTrail isPySpace (s.dropWhile isPySpace)

/-- The backtick character, written by code point. -/
def btChar : Char := '\x60'

/-- Python `s.strip("\x60")`: remove backticks from both ends. -/
def stripBT (s : List Char) : List Char :=
  dropTrail (· = btChar) (s.dropWhile (· = btChar))

/-- Python `s.replace(pat, "", 1)`: delete the first occurrence of `pat`. -/
def replaceFirst (pat : List Char) : List Char → List Char
  | [] => []
  | c :: rest =>
    if pat.isPrefixOf (c :: rest) then (c :: rest).drop pat.length
    else c :: replaceFirst pat rest

/-- Python `pat in s` (substring containment). -/
def hasSub (pat : List Char) : List Char → Bool
  | [] => pat.isEmpty
  | c :: rest => pat.isPrefixOf (c :: rest) || hasSub pat rest

/-- Index of the first occurrence of character `c`, if any (Python `s.find`
returns `-1` for `none`; the caller turns the guard into a `match`). -/
def findChar (c : Char) : List Char → Option Nat
  | [] => none
  | d :: rest => if d = c then some 0 else (findChar c rest).map (· + 1)

/-- Index of the last occurrence of character `c`, if any (Python `s.rfind`). -/
def rfindChar (c : Char) (s : List Char) : Option Nat :=
  (findChar c s.reverse).map (fun i => s.length - 1 - i)

/-- Python slice `s[a:b]` for `0 ≤ a ≤ b`. -/
def pySlice (s : List Char) (a b : Nat) : List Char :=
  (s.drop a).take (b - a)

/-- Python `week_id.split("-W")`: split on every non-overlapping occurrence of
the two-character separator `-W`, scanning left to right. -/
def splitDashW : List Char → List (List Char)
  | [] => [[]]
  | '-' :: 'W' :: rest => [] :: splitDashW rest
  | c :: rest =>
    match splitDashW rest with
    | [] => [[c]]
    | h :: t => (c :: h) :: t

/-! ## Decimal digits: Python `str(n)`, `f"{n:02d}"` and `int(s)` -/

/-- The character for a single decimal digit (callers only pass `d < 10`). -/
def digitChar : Nat → Char
  | 0 => '0' | 1 => '1' | 2 => '2' | 3 => '3' | 4 => '4'
  | 5 => '5' | 6 => '6' | 7 => '7' | 8 => '8' | _ => '9'

/-- Numeric value of a decimal digit character, if it is one. -/
def digitVal? (c : Char) : Option Nat :=
  if 48 ≤ c.toNat ∧ c.toNat ≤ 57 then some (c.toNat - 48) else none

/-- Accumulator loop producing the decimal digits of `n` in front of `acc`;
`fuel` bounds the number of digits and makes the recursion structural (the
top-level wrapper always supplies enough). -/
def natDigitsAux : Nat → Nat → List Char → List Char
  | 0, _, acc => acc
  | fuel + 1, n, acc =>
    if n < 10 then digitChar n :: acc
    else natDigitsAux fuel (n / 10) (digitChar (n % 10) :: acc)

/-- Decimal digit string of a natural number (`"0"` for zero). -/
def natDigits (n : Nat) : List Char := natDigitsAux (n + 1) n []

/-- Python `str(i)` for an integer. -/
def intDec (i : Int) : List Char :=
  if i < 0 then '-' :: natDigits (-i).toNat else natDigits i.toNat

/-- Python `f"{n:02d}"` for a non-negative integer. -/
def pad2 (i : Int) : List Char :=
  let d := intDec i
  if d.length < 2 then '0' :: d else d

/-- Digit-run consumer for Python `int(s)`: after a first digit, each further
digit may be preceded by a single underscore. -/
def pyIntDigitsGo (acc : Nat) : List Char → Option Nat
  | [] => some acc
  | c :: rest =>
    if c = '_' then
      match rest with
      | [] => none
      | c2 :: r2 =>
        match digitVal? c2 with
        | some d => pyIntDigitsGo (10 * acc + d) r2
        | none => none
    else
      match digitVal? c with
      | some d => pyIntDigitsGo (10 * acc + d) rest
      | none => none

/-- Digit part of Python `int(s)`: one digit, then digits with optional single
underscores between them. -/
def pyIntDigits : List Char → Option Nat
  | [] => none
  | c :: rest =>
    match digitVal? c with
    | some d => pyIntDigitsGo d rest
    | none => none

/-- Python `int(s)` on a string: strip whitespace, optional sign, digits.
`none` models the `ValueError` raised on anything else. -/
def pyInt (s : List Char) : Option Int :=
  match pyStrip s with
  | [] => none
  | c :: ds =>
    if c = '+' then (pyIntDigits ds).map Int.ofNat
    else if c = '-' then (pyIntDigits ds).map (fun n => -(n : Int))
    else (pyIntDigits (c :: ds)).map Int.ofNat

/-! ## The JSON data model (Python values moved across the oracle boundary) -/

/-- Python values that appear in the program's JSON payloads: `None`, `bool`,
`int`, `str`, `list`, `dict` (an ordered association list, as in CPython).
Floating-point numbers never occur in the program's own data; the embedding
restricts JSON numbers to integers. -/
inductive Json where
  | null : Json
  | bool (b : Bool) : Json
  | num (n : Int) : Json
  | str (s : List Char) : Json
  | arr (elems : List Json) : Json
  | obj (members : List (List Char × Json)) : Json

mutual

/-- Decidable equality of JSON values (the automatic derivation does not
support this nested inductive). -/
def jsonDecEq : (a b : Json) → Decidable (a = b)
  | .null, .null => isTrue rfl
  | .null, .bool _ => isFalse (fun h => Json.noConfusion h)
  | .null, .num _ => isFalse (fun h => Json.noConfusion h)
  | .null, .str _ => isFalse (fun h => Json.noConfusion h)
  | .null, .arr _ => isFalse (fun h => Json.noConfusion h)
  | .null, .obj _ => isFalse (fun h => Json.noConfusion h)
  | .bool _, .null => isFalse (fun h => Json.noConfusion h)
  | .bool a, .bool b =>
    if h : a = b then isTrue (by rw [h]) else isFalse (fun e => h (Json.bool.inj e))
  | .bool _, .num _ => isFalse (fun h => Json.noConfusion h)
  | .bool _, .str _ => isFalse (fun h => Json.noConfusion h)
  | .bool _, .arr _ => isFalse (fun h => Json.noConfusion h)
  | .bool _, .obj _ => isFalse (fun h => Json.noConfusion h)
  | .num _, .null => isFalse (fun h => Json.noConfusion h)
  | .num _, .bool _ => isFalse (fun h => Json.noConfusion h)
  | .num a, .num b =>
    if h : a = b then isTrue (by rw [h]) else isFalse (fun e => h (Json.num.inj e))
  | .num _, .str _ => isFalse (fun h => Json.noConfusion h)
  | .num _, .arr _ => isFalse (fun h => Json.noConfusion h)
  | .num _, .obj _ => isFalse (fun h => Json.noConfusion h)
  | .str _, .null => isFalse (fun h => Json.noConfusion h)
  | .str _, .bool _ => isFalse (fun h => Json.noConfusion h)
  | .str _, .num _ => isFalse (fun h => Json.noConfusion h)
  | .str a, .str b =>
    if h : a = b then isTrue (by rw [h]) else isFalse (fun e => h (Json.str.inj e))
  | .str _, .arr _ => isFalse (fun h => Json.noConfusion h)
  | .str _, .obj _ => isFalse (fun h => Json.noConfusion h)
  | .arr _, .null => isFalse (fun h => Json.noConfusion h)
  | .arr _, .bool _ => isFalse (fun h => Json.noConfusion h)
  | .arr _, .num _ => isFalse (fun h => Json.noConfusion h)
  | .arr _, .str _ => isFalse (fun h => Json.noConfusion h)
  | .arr xs, .arr ys =>
    match jsonDecEqList xs ys with
    | isTrue h => isTrue (by rw [h])
    | isFalse h => isFalse (fun e => h (Json.arr.inj e))
  | .arr _, .obj _ => isFalse (fun h => Json.noConfusion h)
  | .obj _, .null => isFalse (fun h => Json.noConfusion h)
  | .obj _, .bool _ => isFalse (fun h => Json.noConfusion h)
  | .obj _, .num _ => isFalse (fun h => Json.noConfusion h)
  | .obj _, .str _ => isFalse (fun h => Json.noConfusion h)
  | .obj _, .arr _ => isFalse (fun h => Json.noConfusion h)
  | .obj xs, .obj ys =>
    match jsonDecEqMembers xs ys with
    | isTrue h => isTrue (by rw [h])
    | isFalse h => isFalse (fun e => h (Json.obj.inj e))

/-- Decidable equality of JSON value lists. -/
def jsonDecEqList : (a b : List Json) → Decidable (a = b)
  | [], [] => isTrue rfl
  | [], _ :: _ => isFalse (fun h => List.noConfusion h)
  | _ :: _, [] => isFalse (fun h => List.noConfusion h)
  | x :: xs, y :: ys =>
    match jsonDecEq x y with
    | isFalse h1 => isFalse (by intro e; injection e with e1 e2; exact h1 e1)
    | isTrue h1 =>
      match jsonDecEqList xs ys with
      | isTrue h2 => isTrue (by rw [h1, h2])
      | isFalse h2 => isFalse (by intro e; injection e with e1 e2; exact h2 e2)

/-- Decidable equality of JSON object member lists. -/
def jsonDecEqMembers : (a b : List (List Char × Json)) → Decidable (a = b)
  | [], [] => isTrue rfl
  | [], _ :: _ => isFalse (fun h => List.noConfusion h)
  | _ :: _, [] => isFalse (fun h => List.noConfusion h)
  | (k1, v1) :: xs, (k2, v2) :: ys =>
    if hk : k1 = k2 then
      match jsonDecEq v1 v2 with
      | isFalse h1 =>
        isFalse (by intro e; injection e with e1 e2; injection e1 with ek ev; exact h1 ev)
      | isTrue h1 =>
        match jsonDecEqMembers xs ys with
        | isTrue h2 => isTrue (by rw [hk, h1, h2])
        | isFalse h2 => isFalse (by intro e; injection e with e1 e2; exact h2 e2)
    else isFalse (by intro e; injection e with e1 e2; injection e1 with ek ev; exact hk ek)

end

instance : DecidableEq Json := jsonDecEq

instance : DecidableEq (List Json) := jsonDecEqList

instance : DecidableEq (List (List Char × Json)) := jsonDecEqMembers

/-- Python truthiness of a JSON-shaped value (`if x:`; empty containers,
empty strings, zero, `False` and `None` are falsy). -/
def Json.truthy : Json → Bool
  | .null => false
  | .bool b => b
  | .num n => !(n == 0)
  | .str s => !s.isEmpty
  | .arr xs => !xs.isEmpty
  | .obj kvs => !kvs.isEmpty

/-- Lookup in an ordered association list by key; CPython dictionaries have
unique keys, and JSON decoding keeps the last duplicate, so lookup of the
last matching member is used. -/
def assocLast (kvs : List (List Char × Json)) (k : List Char) : Option Json :=
  match kvs with
  | [] => none
  | (k0, v0) :: rest =>
    match assocLast rest k with
    | some v => some v
    | none => if k0 = k then some v0 else none

/-- Python `d.get(k)` on a dict, `None` when absent; `none` (the outer one)
models the `AttributeError` raised when the receiver is not a dict. -/
def Json.get? (j : Json) (k : List Char) : Option Json :=
  match j with
  | .obj kvs => some ((assocLast kvs k).getD Json.null)
  | _ => none

/-- Python `d.get(k, default)`; `none` models the `AttributeError` raised when
the receiver is not a dict. -/
def Json.getD? (j : Json) (k : List Char) (dflt : Json) : Option Json :=
  match j with
  | .obj kvs => some ((assocLast kvs k).getD dflt)
  | _ => none

/-- String escaping used by `json.dumps` for the characters the program's
strings actually need escaping for (quote and backslash). -/
def escapeStr (s : List Char) : List Char :=
  s.flatMap fun c =>
    if c = '"' then ['\\', '"']
    else if c = '\\' then ['\\', '\\'] else [c]

mutual

/-- Compact serialization of a JSON value; models `json.dumps` with
`ensure_ascii=False` (whitespace between tokens is immaterial everywhere the
program uses the result). -/
def serialize : Json → List Char
  | .null => "null".toList
  | .bool true => "true".toList
  | .bool false => "false".toList
  | .num n => intDec n
  | .str s => '"' :: (escapeStr s ++ ['"'])
  | .arr xs => '[' :: (serializeElems xs ++ [']'])
  | .obj kvs => '\x7b' :: (serializeMembers kvs ++ ['\x7d'])

/-- Comma-separated serialization of array elements. -/
def serializeElems : List Json → List Char
  | [] => []
  | [x] => serialize x
  | x :: xs => serialize x ++ ',' :: serializeElems xs

/-- Comma-separated serialization of object members. -/
def serializeMembers : List (List Char × Json) → List Char
  | [] => []
  | [(k, v)] => '"' :: (escapeStr k ++ '"' :: ':' :: serialize v)
  | (k, v) :: kvs =>
    ('"' :: (escapeStr k ++ '"' :: ':' :: serialize v)) ++ ',' :: serializeMembers kvs

end

mutual

/-- Well-formedness of a JSON value for serialization round-trips: strings
contain no control characters (which `json.dumps` would escape with `\u`
sequences this model does not produce). -/
def Json.wfb : Json → Bool
  | .null => true
  | .bool _ => true
  | .num _ => true
  | .str s => s.all (fun c => 32 ≤ c.toNat)
  | .arr xs => Json.wfbElems xs
  | .obj kvs => Json.wfbMembers kvs

/-- Well-formedness of a list of JSON values. -/
def Json.wfbElems : List Json → Bool
  | [] => true
  | x :: xs => Json.wfb x && Json.wfbElems xs

/-- Well-formedness of object members. -/
def Json.wfbMembers : List (List Char × Json) → Bool
  | [] => true
  | (k, v) :: kvs => k.all (fun c => 32 ≤ c.toNat) && Json.wfb v && Json.wfbMembers kvs

end

/-! ## A JSON parser (executable model of `json.loads`) -/

/-- JSON inter-token whitespace. -/
def isJsonWs (c : Char) : Bool :=
  c = ' ' || c = '\t' || c = '\n' || c = '\r'

/-- Skip JSON whitespace. -/
def skipWs (s : List Char) : List Char := s.dropWhile isJsonWs

/-- Escape sequences accepted after a backslash inside a JSON string (the
`\uXXXX` form is not modelled; the program never produces it). -/
def escChar? (e : Char) : Option Char :=
  if e = '"' then some '"'
  else if e = '\\' then some '\\'
  else if e = '/' then some '/'
  else if e = 'n' then some '\n'
  else if e = 't' then some '\t'
  else if e = 'r' then some '\r'
  else if e = 'b' then some '\x08'
  else if e = 'f' then some '\x0c'
  else none

/-- Parse the body of a JSON string after the opening quote, returning the
decoded characters and the remaining input after the closing quote.  Control
characters are rejected, as in `json.loads` strict mode. -/
def parseStringBody : List Char → Option (List Char × List Char)
  | [] => none
  | c :: rest =>
    if c = '"' then some ([], rest)
    else if c = '\\' then
      match rest with
      | [] => none
      | e :: rest2 =>
        match escChar? e with
        | none => none
        | some ec =>
          match parseStringBody rest2 with
          | none => none
          | some (s, r) => some (ec :: s, r)
    else if c.toNat < 32 then none
    else
      match parseStringBody rest with
      | none => none
      | some (s, r) => some (c :: s, r)

/-- Consume a run of decimal digits, folding them onto `acc`. -/
def takeDigitsAcc (acc : Nat) : List Char → Nat × List Char
  | [] => (acc, [])
  | c :: rest =>
    match digitVal? c with
    | some d => takeDigitsAcc (10 * acc + d) rest
    | none => (acc, c :: rest)

/-- Parse an unsigned JSON number (leading zeros are rejected, as in the JSON
grammar). -/
def parseNatNum : List Char → Option (Nat × List Char)
  | [] => none
  | c :: rest =>
    match digitVal? c with
    | none => none
    | some d =>
      if d = 0 then
        match rest with
        | [] => some (0, [])
        | c2 :: _ => if (digitVal? c2).isSome then none else some (0, rest)
      else some (takeDigitsAcc d rest)

/-- Parse a JSON integer with optional leading minus sign. -/
def parseNumber (s : List Char) : Option (Json × List Char) :=
  match s with
  | '-' :: rest => (parseNatNum rest).map (fun p => (Json.num (-(p.1 : Int)), p.2))
  | _ => (parseNatNum s).map (fun p => (Json.num (p.1 : Int), p.2))

mutual

/-- Parse one JSON value (recursive descent; `fuel` bounds the recursion
depth and is consumed on every recursive step). -/
def parseValue : Nat → List Char → Option (Json × List Char)
  | 0, _ => none
  | fuel + 1, s =>
    match skipWs s with
    | [] => none
    | c :: rest =>
      if c = '\x7b' then
        match skipWs rest with
        | '\x7d' :: r2 => some (Json.obj [], r2)
        | r1 => (parseMembers fuel r1).map (fun p => (Json.obj p.1, p.2))
      else if c = '[' then
        match skipWs rest with
        | ']' :: r2 => some (Json.arr [], r2)
        | r1 => (parseElems fuel r1).map (fun p => (Json.arr p.1, p.2))
      else if c = '"' then
        (parseStringBody rest).map (fun p => (Json.str p.1, p.2))
      else if ['t', 'r', 'u', 'e'].isPrefixOf (c :: rest) then
        some (Json.bool true, (c :: rest).drop 4)
      else if ['f', 'a', 'l', 's', 'e'].isPrefixOf (c :: rest) then
        some (Json.bool false, (c :: rest).drop 5)
      else if ['n', 'u', 'l', 'l'].isPrefixOf (c :: rest) then
        some (Json.null, (c :: rest).drop 4)
      else parseNumber (c :: rest)

/-- Parse a non-empty comma-separated member list of an object, including the
closing brace. -/
def parseMembers : Nat → List Char → Option (List (List Char × Json) × List Char)
  | 0, _ => none
  | fuel + 1, s =>
    match s with
    | '"' :: rest =>
      match parseStringBody rest with
      | none => none
      | some (k, r1) =>
        match skipWs r1 with
        | ':' :: r2 =>
          match parseValue fuel r2 with
          | none => none
          | some (v, r3) =>
            match skipWs r3 with
            | ',' :: r4 =>
              (parseMembers fuel (skipWs r4)).map (fun p => ((k, v) :: p.1, p.2))
            | '\x7d' :: r4 => some ([(k, v)], r4)
            | _ => none
        | _ => none
    | _ => none

/-- Parse a non-empty comma-separated element list of an array, including the
closing bracket. -/
def parseElems : Nat → List Char → Option (List Json × List Char)
  | 0, _ => none
  | fuel + 1, s =>
    match parseValue fuel s with
    | none => none
    | some (v, r) =>
      match skipWs r with
      | ',' :: r2 => (parseElems fuel r2).map (fun p => (v :: p.1, p.2))
      | ']' :: r2 => some ([v], r2)
      | _ => none

end

/-- Model of Python `json.loads` on the JSON fragment used by the program:
parse one value, then require only whitespace to remain.  `none` models the
`ValueError` raised on invalid documents. -/
def jsonLoads (s : List Char) : Option Json :=
  match parseValue (s.length + 1) s with
  | some (j, rest) => if (skipWs rest).isEmpty then some j else none
  | none => none

/-- A position where a JSON number may stop: end of input or a non-digit
character (`json.loads` ends a number at the first non-digit). -/
def numStop : List Char → Bool
  | [] => true
  | c :: _ => (digitVal? c).isNone

mutual

/-- Structural weight of a JSON value, bounding the parser fuel its
serialization needs. -/
def jweight : Json → Nat
  | .null => 1
  | .bool _ => 1
  | .num _ => 1
  | .str _ => 1
  | .arr xs => 1 + jweightElems xs
  | .obj kvs => 1 + jweightMembers kvs

/-- Structural weight of a list of JSON values. -/
def jweightElems : List Json → Nat
  | [] => 0
  | x :: xs => 1 + jweight x + jweightElems xs

/-- Structural weight of object members. -/
def jweightMembers : List (List Char × Json) → Nat
  | [] => 0
  | (_, v) :: kvs => 1 + jweight v + jweightMembers kvs

end

/-! ## `safe_parse_json` (src/main.py lines 51-74) -/

/-- The string `"error"` as a key. -/
def errorKey : List Char := ['e', 'r', 'r', 'o', 'r']

/-- The string `"raw"` as a key. -/
def rawKey : List Char := ['r', 'a', 'w']

/-- The literal `"json"` removed after a code fence. -/
def jsonLit : List Char := ['j', 's', 'o', 'n']

/-- The code-fence marker. -/
def fenceLit : List Char := [btChar, btChar, btChar]

/-- The error dictionary returned on an empty model response. -/
def emptyRespErr : Json :=
  Json.obj [(errorKey, Json.str "Empty model response".toList)]

/-- The error dictionary returned when the response cannot be coerced to
JSON; the raw original text is preserved under `"raw"`. -/
def malformedErr (text : List Char) : Json :=
  Json.obj [(errorKey, Json.str "Model did not return valid JSON".toList),
            (rawKey, Json.str text)]

/-- The text-recovery pipeline of `safe_parse_json` before `json.loads`:
strip whitespace; if the text starts with a triple-backtick fence, strip all
leading/trailing backticks, delete the first occurrence of `"json"` and strip
again; then slice from the first `'\x7b'` to the last `'\x7d'` when both exist
in that order. -/
def recoverText (text : List Char) : List Char :=
  let t0 := pyStrip text
  let t1 :=
    if fenceLit.isPrefixOf t0 then pyStrip (replaceFirst jsonLit (stripBT t0))
    else t0
  match findChar '\x7b' t1, rfindChar '\x7d' t1 with
  | some s, some e => if s < e then pySlice t1 s (e + 1) else t1
  | _, _ => t1

/-- `safe_parse_json` (src/main.py lines 51-74): best-effort extraction of a
JSON object from model output.  Total: parse failures become error
dictionaries, never exceptions. -/
def safe_parse_json (text : List Char) : Json :=
  if text.isEmpty then emptyRespErr
  else
    match jsonLoads (recoverText text) with
    | some j => j
    | none => malformedErr text

/-! ## Calendar arithmetic

CPython's `datetime.date` is embedded through proleptic-Gregorian ordinals:
the `Int` ordinal `n` is the date with `date.toordinal() == n`, day 1 being
0001-01-01 and day 3652059 being 9999-12-31 (`date.max`).  The functions
below are translations of the corresponding routines in CPython's
`Lib/datetime.py`; Python `//` and `%` (floor division) are `Int.ediv` /
`Int.emod`, which agree with floor division for positive divisors. -/

/-- Gregorian leap-year test (`datetime._is_leap`). -/
def isLeap (y : Int) : Bool :=
  (y % 4 = 0 && y % 100 ≠ 0) || y % 400 = 0

/-- Ordinal of January 1 of year `y` (`datetime._days_before_year(y) + 1`). -/
def jan1 (y : Int) : Int :=
  365 * (y - 1) + (y - 1) / 4 - (y - 1) / 100 + (y - 1) / 400 + 1

/-- Days in the year before the first of month `m` for a common year
(`datetime._DAYS_BEFORE_MONTH`). -/
def daysBeforeMonthCommon (m : Int) : Int :=
  if m = 1 then 0 else if m = 2 then 31 else if m = 3 then 59
  else if m = 4 then 90 else if m = 5 then 120 else if m = 6 then 151
  else if m = 7 then 181 else if m = 8 then 212 else if m = 9 then 243
  else if m = 10 then 273 else if m = 11 then 304 else 334

/-- Days in month `m` of year `y` (`datetime._days_in_month`). -/
def daysInMonth (y m : Int) : Int :=
  if m = 2 then (if isLeap y then 29 else 28)
  else if m = 4 ∨ m = 6 ∨ m = 9 ∨ m = 11 then 30
  else 31

/-- Validity of a `(year, month, day)` triple as a CPython `datetime.date`. -/
def validYmd (y m d : Int) : Prop :=
  1 ≤ y ∧ y ≤ 9999 ∧ 1 ≤ m ∧ m ≤ 12 ∧ 1 ≤ d ∧ d ≤ daysInMonth y m

instance (y m d : Int) : Decidable (validYmd y m d) := by
  unfold validYmd; infer_instance

/-- Ordinal of the date `(y, m, d)` (`datetime._ymd2ord`). -/
def ymd2ord (y m d : Int) : Int :=
  jan1 y - 1 + daysBeforeMonthCommon m
    + (if 2 < m ∧ isLeap y then 1 else 0) + d

/-- Ordinal of the Monday of week 1 of ISO year `y`
(`datetime._isoweek1monday`; Monday of the week containing the first
Thursday of the year). -/
def isoweek1monday (y : Int) : Int :=
  let firstday := jan1 y
  let firstweekday := (firstday + 6) % 7
  let week1monday := firstday - firstweekday
  if 3 < firstweekday then week1monday + 7 else week1monday

/-- `datetime.date.fromisocalendar(year, week, day)`, returning the ordinal
of the resulting date; `none` models the `ValueError` raised on a year out of
`[1, 9999]`, an invalid week or day number, or a resulting date outside the
representable range. -/
def fromisocalendar (year week day : Int) : Option Int :=
  if year < 1 ∨ 9999 < year then none
  else if ¬ (0 < week ∧ week < 53) ∧
      ¬ (week = 53 ∧ ((jan1 year) % 7 = 4 ∨
                      ((jan1 year) % 7 = 3 ∧ isLeap year))) then none
  else if ¬ (0 < day ∧ day < 8) then none
  else
    let d := isoweek1monday year + (week - 1) * 7 + (day - 1)
    if d < 1 ∨ 3652059 < d then none else some d

/-- `datetime.date.isocalendar()` for the date `(y, m, d)`: the ISO
`(year, week, weekday)` triple. -/
def isocalendar (y m d : Int) : Int × Int × Int :=
  let today := ymd2ord y m d
  let week1monday := isoweek1monday y
  let week := (today - week1monday) / 7
  let day := (today - week1monday) % 7
  if week < 0 then
    let week1monday2 := isoweek1monday (y - 1)
    (y - 1, (today - week1monday2) / 7 + 1, (today - week1monday2) % 7 + 1)
  else if 52 ≤ week then
    if isoweek1monday (y + 1) ≤ today then (y + 1, 1, day + 1)
    else (y, week + 1, day + 1)
  else (y, week + 1, day + 1)

/-- `current_week_id` (src/main.py lines 44-48) as a function of the local
date `(y, m, d)` delivered by the clock: the ISO week identifier string
formatted as in the f-string, for example `2026-W08`. -/
def current_week_id (y m d : Int) : List Char :=
  let iso := isocalendar y m d
  intDec iso.1 ++ '-' :: 'W' :: pad2 iso.2.1

/-! ## `weekly_plan_to_by_date` (src/main.py lines 133-171) -/

/-- The key `"day"`. -/
def dayKey : List Char := ['d', 'a', 'y']

/-- The key `"blocks"`. -/
def blocksKey : List Char := ['b', 'l', 'o', 'c', 'k', 's']

/-- The separator `"-W"` of week identifiers. -/
def dashW : List Char := ['-', 'W']

/-- The `day_to_offset` dictionary, in insertion order (CPython dictionaries
iterate in insertion order). -/
def dayToOffset : List (List Char × Nat) :=
  [("Monday".toList, 0), ("Tuesday".toList, 1), ("Wednesday".toList, 2),
   ("Thursday".toList, 3), ("Friday".toList, 4), ("Saturday".toList, 5),
   ("Sunday".toList, 6)]

/-- Python `day in day_to_offset` for a string key. -/
def isDayName (s : List Char) : Bool :=
  dayToOffset.any (fun p => p.1 = s)

/-- Python `for item in (weekly_plan or [])`: the list iterated over.  A falsy
value iterates as `[]`; iterating a string yields its characters as
one-character strings and a dict yields its keys (both faulting later at
`item.get`); iterating a number or `True` raises `TypeError` (`none`). -/
def pyIterList : Json → Option (List Json)
  | .null => some []
  | .bool b => if b then none else some []
  | .num n => if n = 0 then some [] else none
  | .str s => some (s.map (fun c => Json.str [c]))
  | .arr xs => some xs
  | .obj kvs => some (kvs.map (fun kv => Json.str kv.1))

/-- Python `item.get("blocks", []) or []`. -/
def orEmptyList (v : Json) : Json :=
  if v.truthy then v else Json.arr []

/-- First-match lookup; the `normalized` accumulator below is built by
prepending, so the first match is the most recent assignment, exactly
CPython's overwrite-on-reassignment dictionary semantics. -/
def lookupFirst : List (List Char × Json) → List Char → Option Json
  | [], _ => none
  | (k0, v) :: rest, k => if k0 = k then some v else lookupFirst rest k

/-- The `normalized` loop of `weekly_plan_to_by_date` (lines 156-160): walk
the plan items; every dict item whose `"day"` value is one of the seven
weekday names assigns its (`or []`-defaulted) `"blocks"` value.  `none`
models the `AttributeError` on a non-dict item and the `TypeError` from
hashing an unhashable (`list`/`dict`) `"day"` value in the membership
test. -/
def buildNormalized (acc : List (List Char × Json)) :
    List Json → Option (List (List Char × Json))
  | [] => some acc
  | item :: rest =>
    match item with
    | .obj kvs =>
      match (assocLast kvs dayKey).getD Json.null with
      | .arr _ => none
      | .obj _ => none
      | .str s =>
        if isDayName s then
          buildNormalized
            ((s, orEmptyList ((assocLast kvs blocksKey).getD (Json.arr []))) :: acc) rest
        else buildNormalized acc rest
      | _ => buildNormalized acc rest
    | _ => none

/-- One output row of `weekly_plan_to_by_date`: the dict
`{"day": ..., "date": ..., "blocks": ...}`, with the date kept as its
ordinal (the source stores `d.isoformat()`, an injective rendering of the
same date object). -/
structure DayOut where
  day : List Char
  date : Int
  blocks : Json
deriving DecidableEq

/-- The output loop of `weekly_plan_to_by_date` (lines 162-169): one row per
weekday in `day_to_offset` order with date `week_start + offset`.  `none`
models the `OverflowError` from `week_start + timedelta(days=offset)`
leaving the representable date range. -/
def buildOut (week_start : Int) (normalized : List (List Char × Json)) :
    List (List Char × Nat) → Option (List DayOut)
  | [] => some []
  | (day, offset) :: rest =>
    let d := week_start + (offset : Int)
    if d < 1 ∨ 3652059 < d then none
    else
      match buildOut week_start normalized rest with
      | some out =>
        some (⟨day, d, (lookupFirst normalized day).getD (Json.arr [])⟩ :: out)
      | none => none

/-- The week-identifier resolution of `weekly_plan_to_by_date` (lines
144-149; the spec calls this `week_start_date`): split the identifier on
`"-W"` into exactly two parts, convert both with `int()`, and resolve the
Monday of that ISO week.  `none` models the uncaught exception of a failed
2-tuple unpacking, an `int()` failure, or a `fromisocalendar` failure. -/
def week_start_resolve (week_id : List Char) : Option Int :=
  match splitDashW week_id with
  | [year_str, week_str] =>
    match pyInt year_str, pyInt week_str with
    | some iso_year, some iso_week => fromisocalendar iso_year iso_week 1
    | _, _ => none
  | _ => none

/-- `weekly_plan_to_by_date` (src/main.py lines 133-171): expand a week plan
into the dated Monday..Sunday view.  Returns `some []` on the early guard
(empty week id or no `"-W"`), and `none` for an uncaught exception. -/
def weekly_plan_to_by_date (week_id : List Char) (weekly_plan : Json) :
    Option (List DayOut) :=
  if week_id.isEmpty || !(hasSub dashW week_id) then some []
  else
    match week_start_resolve week_id with
    | some week_start =>
      match pyIterList weekly_plan with
      | some items =>
        match buildNormalized [] items with
        | some normalized => buildOut week_start normalized dayToOffset
        | none => none
      | none => none
    | none => none

/-! Statement vocabulary for the theorems about `weekly_plan_to_by_date`:
observations of a plan item, defined independently of the loop above so the
properties can be stated against the input plan. -/

/-- A plan item is a dict whose `"day"` value is hashable (not a `list` or
`dict`), so the `day in day_to_offset` membership test cannot raise. -/
def itemOk : Json → Bool
  | .obj kvs =>
    match (assocLast kvs dayKey).getD Json.null with
    | .arr _ => false
    | .obj _ => false
    | _ => true
  | _ => false

/-- The day name of a plan item: its `"day"` value when that is a string. -/
def itemDay : Json → Option (List Char)
  | .obj kvs =>
    match (assocLast kvs dayKey).getD Json.null with
    | .str s => some s
    | _ => none
  | _ => none

/-- The `or []`-defaulted `"blocks"` value of a plan item. -/
def itemBlocks : Json → Json
  | .obj kvs => orEmptyList ((assocLast kvs blocksKey).getD (Json.arr []))
  | _ => Json.arr []

/-- The blocks assigned to `day` by the last plan item naming it, if any. -/
def lastDayBlocks (items : List Json) (day : List Char) : Option Json :=
  ((items.filter (fun it => itemDay it = some day)).getLast?).map itemBlocks

/-! ## Prompt builders (src/main.py lines 175-243)

The templates matter to the verified properties only as opaque oracle
inputs; they are transcribed here so the handlers below call the oracle with
the same data flow as the source (`json.dumps` is the compact `serialize`;
token whitespace inside the dumped JSON is immaterial). -/

/-- The fixed part of the extraction prompt before the user text. -/
def extractPromptHead : List Char :=
  ("You are a task extraction assistant.\n\n" ++
   "Extract actionable tasks from the user\x27s text. Output ONLY valid JSON with this schema:\n" ++
   "\x7b\n  \"tasks\": [\n    \x7b\n      \"title\": \"string\",\n" ++
   "      \"due\": \"string (optional, e.g., 2026-02-23 or \x27Friday\x27 or \x27tomorrow\x27)\",\n" ++
   "      \"estimated_minutes\": number (optional),\n" ++
   "      \"priority\": \"low|medium|high (optional)\",\n" ++
   "      \"category\": \"string (optional)\",\n" ++
   "      \"notes\": \"string (optional)\"\n    \x7d\n  ]\n\x7d\n\n" ++
   "Rules:\n- Keep titles short and actionable.\n" ++
   "- If user did not provide due date/time, omit \"due\".\n" ++
   "- If you are unsure, omit the field.\n" ++
   "- Do not include any extra keys outside this schema.\n\n" ++
   "User text:\n").toList

/-- `build_extract_prompt` (lines 175-201). -/
def build_extract_prompt (text : List Char) : List Char :=
  pyStrip (extractPromptHead ++ text)

/-- The fixed part of the scheduling prompt before the three JSON blobs. -/
def updatePromptHead : List Char :=
  ("You are a weekly planning assistant.\n\n" ++
   "You will update a weekly schedule (Monday-Sunday) based on tasks. Output ONLY valid JSON with this schema:\n" ++
   "\x7b\n  \"weekly_plan\": [\n    \x7b\n" ++
   "      \"day\": \"Monday|Tuesday|Wednesday|Thursday|Friday|Saturday|Sunday\",\n" ++
   "      \"blocks\": [\n        \x7b\n          \"start\": \"HH:MM\",\n" ++
   "          \"end\": \"HH:MM\",\n          \"task\": \"string\",\n" ++
   "          \"notes\": \"string (optional)\"\n        \x7d\n      ]\n    \x7d\n  ],\n" ++
   "  \"changes\": [\"string\"],\n  \"conflicts\": [\"string\"]\n\x7d\n\n" ++
   "Constraints:\n- Keep a realistic schedule (avoid 00:00-06:00).\n" ++
   "- Prefer 30-120 min blocks.\n" ++
   "- Do NOT delete existing blocks unless necessary; adjust carefully.\n" ++
   "- Add new tasks into open times; if cannot fit, put in conflicts.\n\n" ++
   "Existing weekly plan JSON:\n").toList

/-- `build_update_week_prompt` (lines 204-243). -/
def build_update_week_prompt (existing_weekly_plan : Json) (all_tasks : List Json)
    (new_tasks : Json) : List Char :=
  pyStrip (updatePromptHead ++ serialize existing_weekly_plan ++
    "\n\nAll tasks (existing + new) JSON:\n".toList ++ serialize (Json.arr all_tasks) ++
    "\n\nNew tasks to add (most important):\n".toList ++ serialize new_tasks)

/-! ## The two mutating request handlers -/

/-- The key `"tasks"`. -/
def tasksKey : List Char := ['t', 'a', 's', 'k', 's']

/-- The key `"weekly_plan"`. -/
def weeklyPlanKey : List Char := "weekly_plan".toList

/-- The key `"changes"`. -/
def changesKey : List Char := "changes".toList

/-- The key `"conflicts"`. -/
def conflictsKey : List Char := "conflicts".toList

/-- The stored week document (`get_or_init_week` guarantees the `version`,
`tasks` and `weekly_plan` fields exist; `version` is an integer and `tasks`
a list in every document this program writes).  The `created_at` field is
never read or written by the merge operations and is omitted. -/
structure WeekDoc where
  user_id : List Char
  week_id : List Char
  version : Int
  tasks : List Json
  weekly_plan : Json
  updated_at : List Char
deriving DecidableEq

/-- Result of the `confirm_add` branch of `ui_action`: the stored document
after the request, the events appended to the log, and the JSON value
rendered into `extracted_pretty`. -/
structure UiResult where
  doc : WeekDoc
  events : List Json
  pretty : Json
deriving DecidableEq

/-- Result of `api_weekly_add_text`: the stored document after the request,
the events appended, and the response body (`none` models an uncaught
exception surfacing as an HTTP 500, since this route has no handler). -/
structure ApiResult where
  doc : WeekDoc
  events : List Json
  response : Option Json
deriving DecidableEq

/-- The error value `{"error": "No extracted tasks to add. Please Extract first."}`. -/
def noPendingErr : Json :=
  Json.obj [(errorKey, Json.str "No extracted tasks to add. Please Extract first.".toList)]

/-- The error value `{"error": "Extracted task list is empty."}`. -/
def emptyListErr : Json :=
  Json.obj [(errorKey, Json.str "Extracted task list is empty.".toList)]

/-- The error value `{"error": "Missing text"}` (returned with HTTP 400). -/
def missingTextErr : Json :=
  Json.obj [(errorKey, Json.str "Missing text".toList)]

/-- The `{"error": str(e)}` value rendered by the `except` handler of
`ui_action`; the exception text is abstracted to a fixed marker, since no
verified property depends on it. -/
def excErr : Json :=
  Json.obj [(errorKey, Json.str "exception".toList)]

/-- The audit event appended by both merge handlers (`log_event` adds
`created_at` at the end via `setdefault`). -/
def mergeEvent (evType : List Char) (user_id week_id : List Char)
    (new_tasks : Json) (ukvs : List (List Char × Json)) (now : List Char) : Json :=
  Json.obj [("type".toList, Json.str evType),
            ("user_id".toList, Json.str user_id),
            ("week_id".toList, Json.str week_id),
            ("new_tasks".toList, new_tasks),
            (changesKey, (assocLast ukvs changesKey).getD (Json.arr [])),
            (conflictsKey, (assocLast ukvs conflictsKey).getD (Json.arr [])),
            ("created_at".toList, Json.str now)]

/-- The success value rendered by `confirm_add` (lines 339-345). -/
def uiSuccessPretty (doc2 : WeekDoc) (ukvs : List (List Char × Json)) : Json :=
  Json.obj [("message".toList, Json.str "Tasks added to weekly plan.".toList),
            ("week_id".toList, Json.str doc2.week_id),
            ("version".toList, Json.num doc2.version),
            (changesKey, (assocLast ukvs changesKey).getD (Json.arr [])),
            (conflictsKey, (assocLast ukvs conflictsKey).getD (Json.arr []))]

/-- The `confirm_add` branch of `ui_action` (src/main.py lines 275-372,
branch at lines 305-345), as a function of the oracle, the loaded week
document, the posted `pending_tasks_json` form field and the clock.  The
outer `none` models the uncaught fault of the pre-dispatch rendering at line
292 (outside the `try` block); every fault inside the branch is caught by
the `except` handler at line 357, which leaves the store and log untouched
unless the commit already happened. -/
def ui_confirm_add (oracle : List Char → Option (List Char)) (user_id : List Char)
    (doc : WeekDoc) (pending_tasks_json : List Char) (now : List Char) :
    Option UiResult :=
  match weekly_plan_to_by_date doc.week_id doc.weekly_plan with
  | none => none
  | some _ =>
    some (
      if pending_tasks_json.isEmpty then ⟨doc, [], noPendingErr⟩
      else
        match jsonLoads pending_tasks_json with
        | none => ⟨doc, [], excErr⟩
        | some pending =>
          match pending with
          | Json.obj pkvs =>
            match (assocLast pkvs tasksKey).getD (Json.arr []) with
            | Json.arr ns =>
              if ns.isEmpty then ⟨doc, [], emptyListErr⟩
              else
                let tasks_updated := doc.tasks ++ ns
                match oracle (build_update_week_prompt doc.weekly_plan tasks_updated
                    (Json.arr ns)) with
                | none => ⟨doc, [], excErr⟩
                | some resp =>
                  match safe_parse_json resp with
                  | Json.obj ukvs =>
                    let doc2 : WeekDoc :=
                      { doc with
                        tasks := tasks_updated
                        weekly_plan := (assocLast ukvs weeklyPlanKey).getD (Json.arr [])
                        version := doc.version + 1
                        updated_at := now }
                    let ev := mergeEvent "ui_add_to_week".toList user_id doc.week_id
                      (Json.arr ns) ukvs now
                    match weekly_plan_to_by_date doc2.week_id doc2.weekly_plan with
                    | none => ⟨doc2, [ev], excErr⟩
                    | some _ => ⟨doc2, [ev], uiSuccessPretty doc2 ukvs⟩
                  | _ => ⟨doc, [], excErr⟩
            | _ => ⟨doc, [], emptyListErr⟩
          | _ => ⟨doc, [], excErr⟩)

/-- The response body of a successful `api_weekly_add_text` (lines 421-428). -/
def apiSuccessBody (doc2 : WeekDoc) (ukvs : List (List Char × Json)) : Json :=
  Json.obj [("message".toList, Json.str "Added tasks and updated weekly plan.".toList),
            ("week_id".toList, Json.str doc2.week_id),
            ("version".toList, Json.num doc2.version),
            (changesKey, (assocLast ukvs changesKey).getD (Json.arr [])),
            (conflictsKey, (assocLast ukvs conflictsKey).getD (Json.arr [])),
            (weeklyPlanKey, doc2.weekly_plan)]

/-- `api_weekly_add_text` (src/main.py lines 391-428), as a function of the
oracle, the posted text, the loaded week document and the clock.  This route
has no exception handler: `response = none` models an exception escaping to
the framework; in every such case the store write has not yet happened,
because `save_week` is the last fallible-free step. -/
def api_weekly_add_text (oracle : List Char → Option (List Char))
    (user_id : List Char) (payload_text : List Char) (doc : WeekDoc)
    (now : List Char) : ApiResult :=
  let text := pyStrip payload_text
  if text.isEmpty then ⟨doc, [], some missingTextErr⟩
  else
    match oracle (build_extract_prompt text) with
    | none => ⟨doc, [], none⟩
    | some resp1 =>
      match safe_parse_json resp1 with
      | Json.obj ekvs =>
        let tasksRaw := (assocLast ekvs tasksKey).getD (Json.arr [])
        match (if tasksRaw.truthy then tasksRaw else Json.arr []) with
        | Json.arr ns =>
          let new_tasks := Json.arr ns
          let tasks_updated := doc.tasks ++ ns
          match oracle (build_update_week_prompt doc.weekly_plan tasks_updated
              new_tasks) with
          | none => ⟨doc, [], none⟩
          | some resp2 =>
            match safe_parse_json resp2 with
            | Json.obj ukvs =>
              let doc2 : WeekDoc :=
                { doc with
                  tasks := tasks_updated
                  weekly_plan := (assocLast ukvs weeklyPlanKey).getD (Json.arr [])
                  version := doc.version + 1
                  updated_at := now }
              let ev := mergeEvent "api_add_text".toList user_id doc2.week_id
                new_tasks ukvs now
              ⟨doc2, [ev], some (apiSuccessBody doc2 ukvs)⟩
            | _ => ⟨doc, [], none⟩
        | _ => ⟨doc, [], none⟩
      | _ => ⟨doc, [], none⟩

/-! ## Theorems.  First: generic string-helper lemmas -/

theorem dropWhile_eq_self_of (p : Char → Bool) (s : List Char)
    (h : ∀ c ∈ s, p c = false) : s.dropWhile p = s := by
  cases s with
  | nil => rfl
  | cons c rest => simp [List.dropWhile, h c (by simp)]

theorem dropTrail_eq_self_of (p : Char → Bool) (s : List Char)
    (h : ∀ c ∈ s, p c = false) : dropTrail p s = s := by
  unfold dropTrail
  rw [dropWhile_eq_self_of p s.reverse (fun c hc => h c (List.mem_reverse.mp hc))]
  exact s.reverse_reverse

theorem pyStrip_eq_self_of (s : List Char)
    (h : ∀ c ∈ s, isPySpace c = false) : pyStrip s = s := by
  unfold pyStrip
  rw [dropWhile_eq_self_of _ s h, dropTrail_eq_self_of _ s h]

theorem isPySpace_false_of_ge (c : Char) (h : 48 ≤ c.toNat) : isPySpace c = false := by
  by_contra hc
  rw [Bool.not_eq_false] at hc
  unfold isPySpace at hc
  simp only [Bool.or_eq_true, decide_eq_true_eq] at hc
  rcases hc with ((((e | e) | e) | e) | e) | e <;> (subst e; revert h; decide)

/-! ## Decimal digit lemmas -/

theorem natDigitsAux_eq_append (n : Nat) :
    ∀ fuel acc, n < fuel → natDigitsAux fuel n acc = natDigits n ++ acc := by
  induction n using Nat.strong_induction_on with
  | _ n ih =>
    intro fuel acc hfl
    match fuel with
    | 0 => omega
    | f + 1 =>
      rw [natDigitsAux, natDigits, natDigitsAux]
      by_cases h : n < 10
      · simp [h]
      · have hd : n / 10 < n := Nat.div_lt_self (by omega) (by omega)
        simp only [h, if_false]
        rw [ih (n / 10) hd f _ (by omega), ih (n / 10) hd n _ (by omega)]
        simp

theorem natDigits_decompose (n : Nat) (h : ¬ n < 10) :
    natDigits n = natDigits (n / 10) ++ [digitChar (n % 10)] := by
  rw [natDigits, natDigitsAux]
  simp only [h, if_false]
  exact natDigitsAux_eq_append (n / 10) n [digitChar (n % 10)]
    (by omega)

theorem natDigits_of_lt (n : Nat) (h : n < 10) : natDigits n = [digitChar n] := by
  rw [natDigits, natDigitsAux]
  simp [h]

theorem digitChar_toNat (d : Nat) (h : d < 10) : (digitChar d).toNat = 48 + d := by
  interval_cases d <;> decide

theorem natDigits_all_digits (n : Nat) :
    ∀ c ∈ natDigits n, 48 ≤ c.toNat ∧ c.toNat ≤ 57 := by
  induction n using Nat.strong_induction_on with
  | _ n ih =>
    by_cases h : n < 10
    · rw [natDigits_of_lt n h]
      intro c hc
      simp at hc
      subst hc
      rw [digitChar_toNat n h]
      omega
    · rw [natDigits_decompose n h]
      intro c hc
      rcases List.mem_append.mp hc with hc | hc
      · exact ih (n / 10) (Nat.div_lt_self (by omega) (by omega)) c hc
      · simp at hc
        subst hc
        rw [digitChar_toNat (n % 10) (by omega)]
        omega

theorem natDigits_ne_nil (n : Nat) : natDigits n ≠ [] := by
  by_cases h : n < 10
  · rw [natDigits_of_lt n h]; simp
  · rw [natDigits_decompose n h]; simp

theorem pyIntDigitsGo_digits (ds : List Char)
    (h : ∀ c ∈ ds, 48 ≤ c.toNat ∧ c.toNat ≤ 57) :
    ∀ acc, pyIntDigitsGo acc ds =
      some (ds.foldl (fun a c => 10 * a + (c.toNat - 48)) acc) := by
  induction ds with
  | nil => intro acc; rfl
  | cons c rest ih =>
    intro acc
    have hc := h c (by simp)
    have hne : c ≠ '_' := by
      intro e
      subst e
      revert hc
      decide
    have hdv : digitVal? c = some (c.toNat - 48) := by
      unfold digitVal?
      rw [if_pos ⟨hc.1, hc.2⟩]
    rw [pyIntDigitsGo.eq_def]
    simp only [if_neg hne, hdv]
    rw [ih (fun x hx => h x (by simp [hx]))]
    simp [List.foldl]

theorem natDigits_foldl (n : Nat) :
    ∀ acc, (natDigits n).foldl (fun a c => 10 * a + (c.toNat - 48)) acc =
      acc * 10 ^ (natDigits n).length + n := by
  induction n using Nat.strong_induction_on with
  | _ n ih =>
    intro acc
    by_cases h : n < 10
    · rw [natDigits_of_lt n h]
      simp [List.foldl, digitChar_toNat n h]
      omega
    · rw [natDigits_decompose n h]
      rw [List.foldl_append]
      rw [ih (n / 10) (Nat.div_lt_self (by omega) (by omega)) acc]
      simp only [List.foldl, List.length_append, List.length_cons, List.length_nil]
      rw [digitChar_toNat (n % 10) (by omega), pow_succ]
      have h1 : 48 + n % 10 - 48 = n % 10 := by omega
      rw [h1]
      have h10 : 10 * (n / 10) + n % 10 = n := by omega
      ring_nf
      omega

theorem pyIntDigits_natDigits (n : Nat) : pyIntDigits (natDigits n) = some n := by
  have hall := natDigits_all_digits n
  rcases hne : natDigits n with _ | ⟨c, cs⟩
  · exact absurd hne (natDigits_ne_nil n)
  · have hc : 48 ≤ c.toNat ∧ c.toNat ≤ 57 := by
      apply hall
      rw [hne]
      simp
    have hdv : digitVal? c = some (c.toNat - 48) := by
      unfold digitVal?
      rw [if_pos ⟨hc.1, hc.2⟩]
    rw [pyIntDigits.eq_def]
    simp only [hdv]
    rw [pyIntDigitsGo_digits cs (fun x hx => by
      apply hall
      rw [hne]
      simp [hx])]
    have hv := natDigits_foldl n 0
    rw [hne] at hv
    simp only [List.foldl] at hv
    simp at hv
    rw [hv]

theorem natDigits_no_space (n : Nat) :
    ∀ c ∈ natDigits n, isPySpace c = false :=
  fun c hc => isPySpace_false_of_ge c (natDigits_all_digits n c hc).1

theorem pyInt_natDigits (n : Nat) : pyInt (natDigits n) = some (n : Int) := by
  rw [pyInt.eq_def, pyStrip_eq_self_of _ (natDigits_no_space n)]
  rcases hne : natDigits n with _ | ⟨c, cs⟩
  · exact absurd hne (natDigits_ne_nil n)
  · have hc : 48 ≤ c.toNat ∧ c.toNat ≤ 57 := by
      apply natDigits_all_digits n
      rw [hne]
      simp
    have hp : c ≠ '+' := by
      intro e
      subst e
      revert hc
      decide
    have hm : c ≠ '-' := by
      intro e
      subst e
      revert hc
      decide
    simp only [if_neg hp, if_neg hm]
    rw [← hne, pyIntDigits_natDigits n]
    rfl

theorem intDec_nonneg (i : Int) (h : 0 ≤ i) : intDec i = natDigits i.toNat := by
  unfold intDec
  rw [if_neg (by omega)]

theorem pyInt_intDec (i : Int) (h : 0 ≤ i) : pyInt (intDec i) = some i := by
  rw [intDec_nonneg i h, pyInt_natDigits]
  congr 1
  omega

theorem pyInt_zero_cons_digits (n : Nat) :
    pyInt ('0' :: natDigits n) = some (n : Int) := by
  have hall : ∀ c ∈ '0' :: natDigits n, 48 ≤ c.toNat ∧ c.toNat ≤ 57 := by
    intro c hc
    rcases List.mem_cons.mp hc with e | hc
    · subst e; decide
    · exact natDigits_all_digits n c hc
  rw [pyInt.eq_def, pyStrip_eq_self_of _ (fun c hc => isPySpace_false_of_ge c (hall c hc).1)]
  simp only
  rw [if_neg (by decide), if_neg (by decide)]
  rw [pyIntDigits.eq_def]
  have h0 : digitVal? '0' = some 0 := by decide
  simp only [h0]
  rw [pyIntDigitsGo_digits (natDigits n) (natDigits_all_digits n) 0]
  rw [natDigits_foldl n 0]
  simp

theorem pyInt_pad2 (i : Int) (h : 0 ≤ i) : pyInt (pad2 i) = some i := by
  unfold pad2
  by_cases hl : (intDec i).length < 2
  · simp only [hl, if_true]
    rw [intDec_nonneg i h, pyInt_zero_cons_digits]
    congr 1
    omega
  · simp only [hl, if_false]
    exact pyInt_intDec i h

theorem pad2_all_digits (i : Int) (h : 0 ≤ i) :
    ∀ c ∈ pad2 i, 48 ≤ c.toNat ∧ c.toNat ≤ 57 := by
  unfold pad2
  intro c hc
  rw [intDec_nonneg i h] at hc
  by_cases hl : (natDigits i.toNat).length < 2 <;> simp only [hl, if_true, if_false] at hc
  · rcases List.mem_cons.mp hc with e | hc
    · subst e; decide
    · exact natDigits_all_digits _ c hc
  · exact natDigits_all_digits _ c hc

theorem no_dash_of_digits (s : List Char)
    (h : ∀ c ∈ s, 48 ≤ c.toNat ∧ c.toNat ≤ 57) : '-' ∉ s := by
  intro hm
  have := h '-' hm
  revert this
  decide

/-! ## `splitDashW` lemmas -/

theorem splitDashW_dash (rest : List Char) :
    splitDashW ('-' :: 'W' :: rest) = [] :: splitDashW rest := rfl

theorem splitDashW_cons (c : Char) (rest : List Char)
    (hp : c ≠ '-' ∨ ∀ r, rest ≠ 'W' :: r) :
    splitDashW (c :: rest) =
      match splitDashW rest with
      | [] => [[c]]
      | h :: t => (c :: h) :: t := by
  rw [splitDashW.eq_def]
  split
  · rename_i heq
    simp at heq
  · rename_i heq
    injection heq with h1 h2
    rcases hp with hp | hp
    · exact absurd h1 hp
    · exact absurd h2 (hp _)
  · rename_i heq
    injection heq with h1 h2
    subst h1
    subst h2
    rfl

theorem splitDashW_noSub (s : List Char) (h : hasSub dashW s = false) :
    splitDashW s = [s] := by
  induction s with
  | nil => rfl
  | cons c rest ih =>
    rw [hasSub] at h
    simp only [Bool.or_eq_false_iff] at h
    have hp : c ≠ '-' ∨ ∀ r, rest ≠ 'W' :: r := by
      by_cases hc : c = '-'
      · right
        intro r e
        subst hc
        subst e
        simp [dashW, List.isPrefixOf] at h
      · left
        exact hc
    rw [splitDashW_cons c rest hp, ih h.2]

theorem hasSub_dashW_false_of_no_dash (s : List Char) (h : '-' ∉ s) :
    hasSub dashW s = false := by
  induction s with
  | nil => rfl
  | cons c rest ih =>
    have hc : c ≠ '-' := fun e => h (by rw [e]; simp)
    rw [hasSub]
    simp only [Bool.or_eq_false_iff]
    refine ⟨?_, ih (fun hm => h (List.mem_cons_of_mem _ hm))⟩
    simp [dashW, List.isPrefixOf]
    intro e
    exact absurd e.symm hc

theorem splitDashW_concat (a b : List Char) (ha : '-' ∉ a) (hb : '-' ∉ b) :
    splitDashW (a ++ '-' :: 'W' :: b) = [a, b] := by
  induction a with
  | nil =>
    rw [List.nil_append, splitDashW_dash,
      splitDashW_noSub b (hasSub_dashW_false_of_no_dash b hb)]
  | cons c a' ih =>
    have hc : c ≠ '-' := fun e => ha (by rw [e]; simp)
    rw [List.cons_append, splitDashW_cons c _ (Or.inl hc),
      ih (fun hm => ha (List.mem_cons_of_mem _ hm))]

theorem hasSub_dashW_concat (a b : List Char) :
    hasSub dashW (a ++ '-' :: 'W' :: b) = true := by
  induction a with
  | nil =>
    rw [List.nil_append, hasSub]
    simp [dashW, List.isPrefixOf]
  | cons c a' ih =>
    rw [List.cons_append, hasSub]
    simp [ih]

/-! ## Calendar lemmas -/

theorem isLeap_iff (y : Int) :
    isLeap y = true ↔ ((y % 4 = 0 ∧ y % 100 ≠ 0) ∨ y % 400 = 0) := by
  unfold isLeap
  simp [Bool.or_eq_true, Bool.and_eq_true, decide_eq_true_eq]

theorem jan1_succ (y : Int) :
    jan1 (y + 1) = jan1 y + 365 + (if isLeap y then 1 else 0) := by
  by_cases hL : isLeap y = true
  · rw [if_pos hL]
    have hl := (isLeap_iff y).mp hL
    unfold jan1
    omega
  · rw [if_neg hL]
    have hl : ¬ ((y % 4 = 0 ∧ y % 100 ≠ 0) ∨ y % 400 = 0) :=
      fun hp => hL ((isLeap_iff y).mpr hp)
    unfold jan1
    omega

theorem jan1_succ_bounds (y : Int) :
    365 ≤ jan1 (y + 1) - jan1 y ∧ jan1 (y + 1) - jan1 y ≤ 366 := by
  have h := jan1_succ y
  split at h <;> omega

theorem jan1_mono (a b : Int) (h : a ≤ b) : jan1 a ≤ jan1 b := by
  unfold jan1
  omega

theorem jan1_pos (y : Int) (h : 1 ≤ y) : 1 ≤ jan1 y := by
  unfold jan1
  omega

theorem jan1_one : jan1 1 = 1 := by decide

theorem jan1_ten_thousand : jan1 10000 = 3652060 := by decide

theorem isoweek1monday_emod (y : Int) : (isoweek1monday y) % 7 = 1 := by
  simp only [isoweek1monday]
  split <;> omega

theorem isoweek1monday_bounds (y : Int) :
    jan1 y - 3 ≤ isoweek1monday y ∧ isoweek1monday y ≤ jan1 y + 3 := by
  simp only [isoweek1monday]
  split <;> omega

theorem isoweek1monday_one : isoweek1monday 1 = 1 := by decide

theorem isoweek1monday_max : isoweek1monday 10000 = 3652062 := by decide

theorem w1m_succ (y : Int) :
    isoweek1monday (y + 1) - isoweek1monday y =
      if ((jan1 y) % 7 = 4 ∨ ((jan1 y) % 7 = 3 ∧ isLeap y = true)) then 371
      else 364 := by
  have hs := jan1_succ y
  by_cases hL : isLeap y = true
  · rw [if_pos hL] at hs
    by_cases hc : ((jan1 y) % 7 = 4 ∨ ((jan1 y) % 7 = 3 ∧ isLeap y = true))
    · rw [if_pos hc]
      have hc' : (jan1 y) % 7 = 4 ∨ (jan1 y) % 7 = 3 := by tauto
      simp only [isoweek1monday]
      rw [hs]
      split <;> split <;> omega
    · rw [if_neg hc]
      have hc' : ¬ ((jan1 y) % 7 = 4 ∨ (jan1 y) % 7 = 3) := by
        rcases Classical.em ((jan1 y) % 7 = 4) with h4 | h4
        · exact absurd (Or.inl h4) hc
        · rcases Classical.em ((jan1 y) % 7 = 3) with h3 | h3
          · exact absurd (Or.inr ⟨h3, hL⟩) hc
          · tauto
      simp only [isoweek1monday]
      rw [hs]
      split <;> split <;> omega
  · rw [if_neg hL] at hs
    by_cases hc : ((jan1 y) % 7 = 4 ∨ ((jan1 y) % 7 = 3 ∧ isLeap y = true))
    · rw [if_pos hc]
      have hc' : (jan1 y) % 7 = 4 := by tauto
      simp only [isoweek1monday]
      rw [hs]
      split <;> split <;> omega
    · rw [if_neg hc]
      have hc' : ¬ (jan1 y) % 7 = 4 := fun h4 => hc (Or.inl h4)
      simp only [isoweek1monday]
      rw [hs]
      split <;> split <;> omega

theorem w1m_succ_bounds (y : Int) :
    364 ≤ isoweek1monday (y + 1) - isoweek1monday y ∧
    isoweek1monday (y + 1) - isoweek1monday y ≤ 371 ∧
    (isoweek1monday (y + 1) - isoweek1monday y = 364 ∨
     isoweek1monday (y + 1) - isoweek1monday y = 371) := by
  have h := w1m_succ y
  split at h <;> omega

theorem ymd2ord_bounds (y m d : Int) (h : validYmd y m d) :
    jan1 y ≤ ymd2ord y m d ∧
    ymd2ord y m d ≤ jan1 y + 364 + (if isLeap y then 1 else 0) := by
  obtain ⟨h1, h2, h3, h4, h5, h6⟩ := h
  unfold daysInMonth at h6
  unfold ymd2ord daysBeforeMonthCommon
  interval_cases m <;> (try norm_num at h6 ⊢) <;> (try split_ifs at h6 ⊢) <;> omega

theorem ymd2ord_lt_next (y m d : Int) (h : validYmd y m d) :
    ymd2ord y m d < jan1 (y + 1) := by
  have hb := ymd2ord_bounds y m d h
  have hs := jan1_succ y
  by_cases hL : isLeap y = true
  · rw [if_pos hL] at hb hs
    omega
  · rw [if_neg hL] at hb hs
    omega

theorem ymd2ord_range (y m d : Int) (h : validYmd y m d) :
    1 ≤ ymd2ord y m d ∧ ymd2ord y m d ≤ 3652059 := by
  have hy1 : 1 ≤ y := h.1
  have hy9 : y ≤ 9999 := h.2.1
  have hb := (ymd2ord_bounds y m d h).1
  have hn := ymd2ord_lt_next y m d h
  have h1 := jan1_pos y hy1
  have h2 := jan1_mono (y + 1) 10000 (by omega)
  rw [jan1_ten_thousand] at h2
  omega

theorem jan1_two : jan1 2 = 366 := by decide

theorem isocalendar_spec (y m d : Int) (h : validYmd y m d) :
    1 ≤ (isocalendar y m d).1 ∧ (isocalendar y m d).1 ≤ 9999 ∧
    1 ≤ (isocalendar y m d).2.1 ∧ (isocalendar y m d).2.1 ≤ 53 ∧
    fromisocalendar (isocalendar y m d).1 (isocalendar y m d).2.1 1 =
      some (ymd2ord y m d - (ymd2ord y m d + 6) % 7) := by
  have hy1 : 1 ≤ y := h.1
  have hy9 : y ≤ 9999 := h.2.1
  have hlo := (ymd2ord_bounds y m d h).1
  have hhi := ymd2ord_lt_next y m d h
  have hrange := ymd2ord_range y m d h
  have e0 := isoweek1monday_emod (y - 1)
  have e1 := isoweek1monday_emod y
  have e2 := isoweek1monday_emod (y + 1)
  have b0 := isoweek1monday_bounds (y - 1)
  have b1 := isoweek1monday_bounds y
  have b2 := isoweek1monday_bounds (y + 1)
  have j1 := jan1_succ_bounds y
  have d1 := w1m_succ_bounds y
  have hd1 := w1m_succ y
  have hyy : y - 1 + 1 = y := by omega
  have j0 := jan1_succ_bounds (y - 1)
  have d0 := w1m_succ_bounds (y - 1)
  have hd0 := w1m_succ (y - 1)
  rw [hyy] at j0 d0 hd0
  have hm11 : jan1 1 ≤ jan1 y := jan1_mono 1 y (by omega)
  have hj1c : jan1 1 = 1 := jan1_one
  simp only [isocalendar]
  by_cases hneg : (ymd2ord y m d - isoweek1monday y) / 7 < 0
  · rw [if_pos hneg]
    have hy2 : 2 ≤ y := by
      by_contra hy
      have hy1' : y = 1 := by omega
      rw [hy1', isoweek1monday_one] at hneg
      rw [hy1', jan1_one] at hlo
      omega
    have hm2 : jan1 2 ≤ jan1 y := jan1_mono 2 y (by omega)
    have hm1 : jan1 1 ≤ jan1 (y - 1) := jan1_mono 1 (y - 1) (by omega)
    have hj2 : jan1 2 = 366 := jan1_two
    dsimp only
    refine ⟨by omega, by omega, by omega, by omega, ?_⟩
    simp only [fromisocalendar]
    split
    · rename_i hc
      exact absurd hc (by omega)
    split
    · rename_i hc
      obtain ⟨hcA, hcB⟩ := hc
      by_cases hW : (ymd2ord y m d - isoweek1monday (y - 1)) / 7 + 1 = 53
      · rcases d0.2.2 with hdiff | hdiff
        · exfalso
          omega
        · rw [hdiff] at hd0
          split at hd0
          · rename_i hcond
            exact absurd ⟨hW, hcond⟩ hcB
          · exfalso
            omega
      · exact absurd ⟨by omega, by omega⟩ hcA
    split
    · rename_i hc
      exact absurd (show (0:Int) < 1 ∧ (1:Int) < 8 by norm_num) hc
    split
    · rename_i hc
      exact absurd hc (by omega)
    · exact congrArg some (by omega)
  · rw [if_neg hneg]
    by_cases h52 : 52 ≤ (ymd2ord y m d - isoweek1monday y) / 7
    · rw [if_pos h52]
      by_cases hnx : isoweek1monday (y + 1) ≤ ymd2ord y m d
      · rw [if_pos hnx]
        dsimp only
        have hy8 : y ≤ 9998 := by
          by_contra hy
          have hy' : y = 9999 := by omega
          subst hy'
          have h10 : (9999:Int) + 1 = 10000 := by norm_num
          rw [h10, isoweek1monday_max] at hnx
          omega
        have hm2' : jan1 2 ≤ jan1 (y + 1) := jan1_mono 2 (y + 1) (by omega)
        have hj2 : jan1 2 = 366 := jan1_two
        refine ⟨by omega, by omega, by omega, by omega, ?_⟩
        simp only [fromisocalendar]
        split
        · rename_i hc
          exact absurd hc (by omega)
        split
        · rename_i hc
          obtain ⟨hcA, hcB⟩ := hc
          exact absurd ⟨by norm_num, by norm_num⟩ hcA
        split
        · rename_i hc
          exact absurd (show (0:Int) < 1 ∧ (1:Int) < 8 by norm_num) hc
        split
        · rename_i hc
          exact absurd hc (by omega)
        · exact congrArg some (by omega)
      · rw [if_neg hnx]
        dsimp only
        have hwk53 : (ymd2ord y m d - isoweek1monday y) / 7 ≤ 52 := by omega
        refine ⟨by omega, by omega, by omega, by omega, ?_⟩
        simp only [fromisocalendar]
        split
        · rename_i hc
          exact absurd hc (by omega)
        split
        · rename_i hc
          obtain ⟨hcA, hcB⟩ := hc
          rcases d1.2.2 with hdiff | hdiff
          · exfalso
            omega
          · rw [hdiff] at hd1
            split at hd1
            · rename_i hcond
              exact absurd ⟨by omega, hcond⟩ hcB
            · exfalso
              omega
        split
        · rename_i hc
          exact absurd (show (0:Int) < 1 ∧ (1:Int) < 8 by norm_num) hc
        split
        · rename_i hc
          exact absurd hc (by omega)
        · exact congrArg some (by omega)
    · rw [if_neg h52]
      dsimp only
      refine ⟨by omega, by omega, by omega, by omega, ?_⟩
      simp only [fromisocalendar]
      split
      · rename_i hc
        exact absurd hc (by omega)
      split
      · rename_i hc
        obtain ⟨hcA, hcB⟩ := hc
        exact absurd ⟨by omega, by omega⟩ hcA
      split
      · rename_i hc
        exact absurd (show (0:Int) < 1 ∧ (1:Int) < 8 by norm_num) hc
      split
      · rename_i hc
        exact absurd hc (by omega)
      · exact congrArg some (by omega)

theorem week_start_resolve_format (Y W : Int) (hY : 0 ≤ Y) (hW : 0 ≤ W) :
    week_start_resolve (intDec Y ++ '-' :: 'W' :: pad2 W) = fromisocalendar Y W 1 := by
  unfold week_start_resolve
  have ha : '-' ∉ intDec Y := by
    rw [intDec_nonneg Y hY]
    exact no_dash_of_digits _ (natDigits_all_digits _)
  have hb : '-' ∉ pad2 W := no_dash_of_digits _ (pad2_all_digits W hW)
  rw [splitDashW_concat _ _ ha hb]
  dsimp only
  rw [pyInt_intDec Y hY, pyInt_pad2 W hW]

theorem current_week_id_eq (y m d : Int) :
    current_week_id y m d =
      intDec (isocalendar y m d).1 ++ '-' :: 'W' :: pad2 (isocalendar y m d).2.1 := rfl

/-- C4: for every valid date, formatting the ISO week identifier with
`current_week_id` and resolving it through the week-start logic of
`weekly_plan_to_by_date` yields the Monday of the ISO week containing the
date (the ordinal at distance `(ord + 6) % 7` below the date, which has
weekday Monday); in particular 2026-02-20 yields `2026-W08` with start date
2026-02-16, and all seven dates 2025-12-29 .. 2026-01-04 yield `2026-W01`,
which resolves to the Monday 2025-12-29 of ISO year 2026 week 1. -/
theorem c4_iso_week_roundtrip :
    (∀ y m d : Int, validYmd y m d →
      week_start_resolve (current_week_id y m d) =
        some (ymd2ord y m d - (ymd2ord y m d + 6) % 7) ∧
      ymd2ord y m d - (ymd2ord y m d + 6) % 7 ≤ ymd2ord y m d ∧
      ymd2ord y m d < ymd2ord y m d - (ymd2ord y m d + 6) % 7 + 7 ∧
      (ymd2ord y m d - (ymd2ord y m d + 6) % 7 + 6) % 7 = 0) ∧
    current_week_id 2026 2 20 = "2026-W08".toList ∧
    week_start_resolve "2026-W08".toList = some (ymd2ord 2026 2 16) ∧
    current_week_id 2025 12 29 = "2026-W01".toList ∧
    current_week_id 2025 12 30 = "2026-W01".toList ∧
    current_week_id 2025 12 31 = "2026-W01".toList ∧
    current_week_id 2026 1 1 = "2026-W01".toList ∧
    current_week_id 2026 1 2 = "2026-W01".toList ∧
    current_week_id 2026 1 3 = "2026-W01".toList ∧
    current_week_id 2026 1 4 = "2026-W01".toList ∧
    week_start_resolve "2026-W01".toList = some (ymd2ord 2025 12 29) := by
  refine ⟨?_, ?_, ?_, ?_, ?_, ?_, ?_, ?_, ?_, ?_, ?_⟩
  · intro y m d h
    have spec := isocalendar_spec y m d h
    rw [current_week_id_eq,
      week_start_resolve_format _ _ (by omega) (by have := spec.2.2.1; omega)]
    exact ⟨spec.2.2.2.2, by omega, by omega, by omega⟩
  all_goals decide

theorem fromisocalendar_some (Y W st : Int) (h : fromisocalendar Y W 1 = some st) :
    st = isoweek1monday Y + (W - 1) * 7 ∧ (st + 6) % 7 = 0 := by
  simp only [fromisocalendar] at h
  split at h
  · exact absurd h (by simp)
  split at h
  · exact absurd h (by simp)
  split at h
  · exact absurd h (by simp)
  split at h
  · exact absurd h (by simp)
  · have e1 := isoweek1monday_emod Y
    have hst := Option.some.inj h
    constructor
    · omega
    · omega

theorem digitChar_ne_plus (a : Nat) (ha : a < 10) : digitChar a ≠ '+' := by
  intro e
  have h1 := congrArg Char.toNat e
  rw [digitChar_toNat a ha] at h1
  have h2 : '+'.toNat = 43 := rfl
  omega

theorem digitChar_ne_minus (a : Nat) (ha : a < 10) : digitChar a ≠ '-' := by
  intro e
  have h1 := congrArg Char.toNat e
  rw [digitChar_toNat a ha] at h1
  have h2 : '-'.toNat = 45 := rfl
  omega

theorem digitChar_digit (a : Nat) (ha : a < 10) :
    48 ≤ (digitChar a).toNat ∧ (digitChar a).toNat ≤ 57 := by
  rw [digitChar_toNat a ha]
  omega

theorem foldl_digit_chars (vs : List Nat) (hvs : ∀ x ∈ vs, x < 10) :
    ∀ v : Nat, (vs.map digitChar).foldl (fun a c => 10 * a + (c.toNat - 48)) v =
      vs.foldl (fun a x => 10 * a + x) v := by
  induction vs with
  | nil => intro v; simp
  | cons x xs ih =>
    intro v
    have hx : x < 10 := hvs x (by simp)
    simp only [List.map, List.foldl]
    rw [digitChar_toNat x hx]
    have he : 10 * v + (48 + x - 48) = 10 * v + x := by omega
    rw [he]
    exact ih (fun z hz => hvs z (by simp [hz])) (10 * v + x)

theorem pyInt_digit_list (v : Nat) (vs : List Nat) (hv : v < 10)
    (hvs : ∀ x ∈ vs, x < 10) :
    pyInt (digitChar v :: vs.map digitChar) =
      some ((vs.foldl (fun a x => 10 * a + x) v : Nat) : Int) := by
  have hall : ∀ c ∈ digitChar v :: vs.map digitChar, 48 ≤ c.toNat ∧ c.toNat ≤ 57 := by
    intro c hc
    rcases List.mem_cons.mp hc with e | hc
    · subst e; exact digitChar_digit v hv
    · obtain ⟨x, hx, e⟩ := List.mem_map.mp hc
      subst e; exact digitChar_digit x (hvs x hx)
  rw [pyInt.eq_def,
    pyStrip_eq_self_of _ (fun c hc => isPySpace_false_of_ge c (hall c hc).1)]
  simp only [if_neg (digitChar_ne_plus v hv), if_neg (digitChar_ne_minus v hv)]
  rw [pyIntDigits.eq_def]
  have hdv : digitVal? (digitChar v) = some v := by
    unfold digitVal?
    rw [if_pos (digitChar_digit v hv), digitChar_toNat v hv]
    simp
  simp only [hdv]
  rw [pyIntDigitsGo_digits (vs.map digitChar)
    (fun c hc => by
      obtain ⟨x, hx, e⟩ := List.mem_map.mp hc
      subst e; exact digitChar_digit x (hvs x hx)) v]
  rw [foldl_digit_chars vs hvs v]
  rfl

/-- C8 (amended): the code has no `InvalidWeekId` error value.  A week
identifier that is empty or lacks `"-W"` makes `weekly_plan_to_by_date`
return the structured empty rendering `[]`; an identifier of the
`YYYY-W??` digit pattern resolves through `int()` and `fromisocalendar`,
which returns the Monday of that ISO year/week (an ordinal of weekday
Monday, at `isoweek1monday + 7·(week-1)`) exactly when the year/week pair
is valid; any other failure (non-numeric parts, an out-of-range week)
surfaces as an uncaught exception, not a structured error. -/
theorem c8_week_id_resolution :
    (∀ (week_id : List Char) (plan : Json),
      (week_id = [] ∨ hasSub dashW week_id = false) →
      weekly_plan_to_by_date week_id plan = some []) ∧
    (∀ a b c d e f : Nat, a < 10 → b < 10 → c < 10 → d < 10 → e < 10 → f < 10 →
      week_start_resolve
        ([digitChar a, digitChar b, digitChar c, digitChar d] ++
          '-' :: 'W' :: [digitChar e, digitChar f]) =
        fromisocalendar ((a * 1000 + b * 100 + c * 10 + d : Nat) : Int)
          ((e * 10 + f : Nat) : Int) 1) ∧
    (∀ Y W st : Int, fromisocalendar Y W 1 = some st →
      st = isoweek1monday Y + (W - 1) * 7 ∧ (st + 6) % 7 = 0) := by
  refine ⟨?_, ?_, fun Y W st h => fromisocalendar_some Y W st h⟩
  · intro week_id plan hw
    unfold weekly_plan_to_by_date
    rw [if_pos]
    rcases hw with e | e
    · subst e
      simp
    · rw [e]
      simp
  · intro a b c d e f ha hb hc hd he hf
    unfold week_start_resolve
    have hda : '-' ∉ [digitChar a, digitChar b, digitChar c, digitChar d] := by
      intro hm
      simp only [List.mem_cons, List.mem_singleton, List.not_mem_nil] at hm
      rcases hm with hm | hm | hm | hm | hm
      · exact digitChar_ne_minus a ha hm.symm
      · exact digitChar_ne_minus b hb hm.symm
      · exact digitChar_ne_minus c hc hm.symm
      · exact digitChar_ne_minus d hd hm.symm
      · exact hm
    have hdb : '-' ∉ [digitChar e, digitChar f] := by
      intro hm
      simp only [List.mem_cons, List.mem_singleton, List.not_mem_nil] at hm
      rcases hm with hm | hm | hm
      · exact digitChar_ne_minus e he hm.symm
      · exact digitChar_ne_minus f hf hm.symm
      · exact hm
    rw [splitDashW_concat _ _ hda hdb]
    dsimp only
    have h1 := pyInt_digit_list a [b, c, d] ha
      (by intro x hx; simp at hx; rcases hx with e | e | e <;> omega)
    have h2 := pyInt_digit_list e [f] he
      (by intro x hx; simp at hx; omega)
    simp only [List.map] at h1 h2
    rw [h1, h2]
    have e1 : ([b, c, d].foldl (fun a x => 10 * a + x) a) =
        a * 1000 + b * 100 + c * 10 + d := by
      simp [List.foldl]
      ring
    have e2 : ([f].foldl (fun a x => 10 * a + x) e) = e * 10 + f := by
      simp [List.foldl]
      ring
    rw [e1, e2]

/-- C8 counterexample: the claim as frozen is false on the code.
`"abcd-Wxyz"` does not match the `YYYY-W??` pattern, yet
`weekly_plan_to_by_date` raises an uncaught `ValueError` (modelled `none`)
instead of a structured `InvalidWeekId` error; and `"2026-W00"` matches the
two-digit pattern but also faults instead of returning a Monday. -/
theorem c8_counterexample :
    weekly_plan_to_by_date "abcd-Wxyz".toList (Json.arr []) = none ∧
    weekly_plan_to_by_date "2026-W00".toList (Json.arr []) = none := by
  constructor <;> decide

/-- Witness instantiating `c8_week_id_resolution` at concrete inputs. -/
theorem c8_witness :
    week_start_resolve
      ([digitChar 2, digitChar 0, digitChar 2, digitChar 6] ++
        '-' :: 'W' :: [digitChar 0, digitChar 8]) =
      fromisocalendar ((2 * 1000 + 0 * 100 + 2 * 10 + 6 : Nat) : Int)
        ((0 * 10 + 8 : Nat) : Int) 1 ∧
    weekly_plan_to_by_date [] Json.null = some [] :=
  ⟨c8_week_id_resolution.2.1 2 0 2 6 0 8 (by norm_num) (by norm_num) (by norm_num)
      (by norm_num) (by norm_num) (by norm_num),
   c8_week_id_resolution.1 [] Json.null (Or.inl rfl)⟩

/-! ## `weekly_plan_to_by_date` lemmas -/

theorem getLast?_cons_form {α : Type} [DecidableEq α] (a : α) (l : List α) :
    (a :: l).getLast? = if l = [] then some a else l.getLast? := by
  cases l with
  | nil => simp
  | cons b l2 => simp [List.getLast?_cons_cons]

theorem lastDayBlocks_nil (day : List Char) : lastDayBlocks [] day = none := rfl

theorem lastDayBlocks_cons (item : Json) (items : List Json) (day : List Char) :
    lastDayBlocks (item :: items) day =
      if itemDay item = some day then
        (match lastDayBlocks items day with
         | none => some (itemBlocks item)
         | some b => some b)
      else lastDayBlocks items day := by
  unfold lastDayBlocks
  by_cases h : itemDay item = some day
  · rw [if_pos h, List.filter_cons, if_pos (by simp [h]), getLast?_cons_form]
    by_cases hF : (items.filter fun it => itemDay it = some day) = []
    · rw [if_pos hF, hF]
      rfl
    · rw [if_neg hF]
      rcases hsome : (items.filter (fun it => itemDay it = some day)).getLast? with _ | b
      · have hs := List.getLast?_isSome.mpr hF
        rw [hsome] at hs
        simp at hs
      · simp
  · rw [if_neg h, List.filter_cons, if_neg (by simp [h])]

theorem buildNormalized_spec (items : List Json) :
    items.all itemOk = true →
    ∀ acc, ∃ m, buildNormalized acc items = some m ∧
      ∀ day, isDayName day = true →
        lookupFirst m day =
          (match lastDayBlocks items day with
           | some b => some b
           | none => lookupFirst acc day) := by
  induction items with
  | nil =>
    intro _ acc
    refine ⟨acc, rfl, fun day _ => ?_⟩
    rw [lastDayBlocks_nil]
  | cons item rest ih =>
    intro hok acc
    rw [List.all_cons, Bool.and_eq_true] at hok
    obtain ⟨hitem, hrest⟩ := hok
    rcases item with _ | b | n | s | xs | kvs
    · simp [itemOk] at hitem
    · simp [itemOk] at hitem
    · simp [itemOk] at hitem
    · simp [itemOk] at hitem
    · simp [itemOk] at hitem
    · rcases hDV : (assocLast kvs dayKey).getD Json.null with _ | b | n | s | xs | kvs2
      · obtain ⟨m, hm, hl⟩ := ih hrest acc
        refine ⟨m, by simp only [buildNormalized, hDV]; exact hm, fun day hday => ?_⟩
        rw [hl day hday, lastDayBlocks_cons, if_neg (by simp [itemDay, hDV])]
      · obtain ⟨m, hm, hl⟩ := ih hrest acc
        refine ⟨m, by simp only [buildNormalized, hDV]; exact hm, fun day hday => ?_⟩
        rw [hl day hday, lastDayBlocks_cons, if_neg (by simp [itemDay, hDV])]
      · obtain ⟨m, hm, hl⟩ := ih hrest acc
        refine ⟨m, by simp only [buildNormalized, hDV]; exact hm, fun day hday => ?_⟩
        rw [hl day hday, lastDayBlocks_cons, if_neg (by simp [itemDay, hDV])]
      · by_cases hdn : isDayName s = true
        · obtain ⟨m, hm, hl⟩ := ih hrest
            ((s, orEmptyList ((assocLast kvs blocksKey).getD (Json.arr []))) :: acc)
          refine ⟨m, by simp only [buildNormalized, hDV, hdn, if_true]; exact hm,
            fun day hday => ?_⟩
          rw [hl day hday, lastDayBlocks_cons]
          have hid : itemDay (Json.obj kvs) = some s := by simp [itemDay, hDV]
          by_cases hsd : s = day
          · subst hsd
            rw [if_pos hid]
            have hib : itemBlocks (Json.obj kvs) =
                orEmptyList ((assocLast kvs blocksKey).getD (Json.arr [])) := by
              simp [itemBlocks]
            cases hlast : lastDayBlocks rest s with
            | none =>
              simp only [hlast]
              rw [lookupFirst, if_pos rfl, hib]
            | some b => simp only [hlast]
          · rw [if_neg (by simp [hid, hsd])]
            cases hlast : lastDayBlocks rest day with
            | none =>
              simp only [hlast]
              rw [lookupFirst, if_neg hsd]
            | some b => simp only [hlast]
        · obtain ⟨m, hm, hl⟩ := ih hrest acc
          refine ⟨m, by
            simp only [buildNormalized, hDV]
            rw [if_neg (by simpa using hdn)]
            exact hm, fun day hday => ?_⟩
          rw [hl day hday, lastDayBlocks_cons]
          have hid : itemDay (Json.obj kvs) = some s := by simp [itemDay, hDV]
          have hsd : ¬ s = day := fun e => hdn (e ▸ hday)
          rw [if_neg (by simp [hid, hsd])]
      · simp [itemOk, hDV] at hitem
      · simp [itemOk, hDV] at hitem

theorem buildOut_spec (start : Int) (normalized : List (List Char × Json)) :
    ∀ days : List (List Char × Nat),
      (∀ p ∈ days, 1 ≤ start + (p.2 : Int) ∧ start + (p.2 : Int) ≤ 3652059) →
      buildOut start normalized days =
        some (days.map (fun p =>
          ⟨p.1, start + (p.2 : Int), (lookupFirst normalized p.1).getD (Json.arr [])⟩)) := by
  intro days
  induction days with
  | nil => intro _; rfl
  | cons p rest ih =>
    intro hbound
    obtain ⟨hp1, hp2⟩ := hbound p (by simp)
    rw [buildOut]
    rw [if_neg (by omega)]
    rw [ih (fun q hq => hbound q (by simp [hq]))]
    rfl

theorem weekly_plan_to_by_date_closed (week_id : List Char) (plan : Json)
    (start : Int) (items : List Json)
    (hres : week_start_resolve week_id = some start)
    (h1 : 1 ≤ start) (h6 : start + 6 ≤ 3652059)
    (hiter : pyIterList plan = some items)
    (hok : items.all itemOk = true) :
    weekly_plan_to_by_date week_id plan =
      some (dayToOffset.map (fun p =>
        ⟨p.1, start + (p.2 : Int), (lastDayBlocks items p.1).getD (Json.arr [])⟩)) := by
  have hguard : (week_id.isEmpty || !(hasSub dashW week_id)) = false := by
    by_contra hg
    rw [Bool.not_eq_false, Bool.or_eq_true] at hg
    rcases hg with hg | hg
    · cases week_id with
      | nil => exact Option.noConfusion hres
      | cons c rest => simp [List.isEmpty] at hg
    · rw [Bool.not_eq_true'] at hg
      unfold week_start_resolve at hres
      rw [splitDashW_noSub week_id hg] at hres
      exact Option.noConfusion hres
  obtain ⟨m, hm, hlook⟩ := buildNormalized_spec items hok []
  have hlook2 : ∀ day, isDayName day = true →
      lookupFirst m day = lastDayBlocks items day := by
    intro day hday
    rw [hlook day hday]
    cases h : lastDayBlocks items day <;> simp [lookupFirst]
  unfold weekly_plan_to_by_date
  rw [hguard]
  simp only [Bool.false_eq_true, if_false]
  rw [hres, hiter]
  dsimp only
  rw [hm]
  dsimp only
  rw [buildOut_spec start m dayToOffset (by
    intro p hp
    have hoff : p.2 ≤ 6 := by
      simp only [dayToOffset, List.mem_cons, List.not_mem_nil, or_false] at hp
      rcases hp with hp | hp | hp | hp | hp | hp | hp <;> (rw [hp]; try norm_num)
    constructor <;> omega)]
  congr 1
  simp only [dayToOffset, List.map]
  rw [hlook2 _ (by decide), hlook2 _ (by decide), hlook2 _ (by decide),
    hlook2 _ (by decide), hlook2 _ (by decide), hlook2 _ (by decide),
    hlook2 _ (by decide)]

/-- C5 (amended): for every week identifier whose resolution succeeds with
all seven dates representable (`start + 6 ≤ ordinal of 9999-12-31`), and
every plan iterating to dict items with hashable `"day"` values,
`weekly_plan_to_by_date` returns exactly 7 rows in the fixed Monday..Sunday
order, dated `start + offset`; a day named by no item (in particular every
day of an empty plan, and days whose items carry unrecognized names) gets an
empty block list, and a named day gets the `or []`-defaulted blocks of the
last item naming it.  The frozen claim's full generality fails on the
representability edge and on unhashable day values (see the
counterexample). -/
theorem c5_seven_day_expansion :
    ∀ (week_id : List Char) (plan : Json) (start : Int) (items : List Json),
      week_start_resolve week_id = some start →
      1 ≤ start → start + 6 ≤ 3652059 →
      pyIterList plan = some items →
      items.all itemOk = true →
      ∃ out, weekly_plan_to_by_date week_id plan = some out ∧
        out.length = 7 ∧
        out.map DayOut.day = dayToOffset.map Prod.fst ∧
        out.map DayOut.date =
          [start, start + 1, start + 2, start + 3, start + 4, start + 5, start + 6] ∧
        (∀ e ∈ out, e.blocks = (lastDayBlocks items e.day).getD (Json.arr [])) := by
  intro week_id plan start items hres h1 h6 hiter hok
  refine ⟨_, weekly_plan_to_by_date_closed week_id plan start items hres h1 h6 hiter hok,
    ?_, ?_, ?_, ?_⟩
  · simp [dayToOffset]
  · simp only [dayToOffset, List.map]
  · simp only [dayToOffset, List.map]
    norm_num
  · intro e he
    simp only [dayToOffset, List.map, List.mem_cons, List.not_mem_nil, or_false] at he
    rcases he with he | he | he | he | he | he | he <;> (subst he; rfl)

/-- C5 counterexample to the claim as frozen: `"9999-W52"` is a valid ISO
week identifier (it resolves to Monday 9999-12-27, ordinal 3652055), yet the
expansion raises `OverflowError` computing the Saturday date and returns no
rows at all; likewise a plan entry whose `"day"` value is a list raises
`TypeError` instead of being silently dropped. -/
theorem c5_counterexample :
    week_start_resolve "9999-W52".toList = some 3652055 ∧
    weekly_plan_to_by_date "9999-W52".toList (Json.arr []) = none ∧
    weekly_plan_to_by_date "2026-W08".toList
      (Json.arr [Json.obj [(dayKey, Json.arr [])]]) = none := by
  refine ⟨by decide, by decide, by decide⟩

/-- Witness instantiating `c5_seven_day_expansion` on an empty plan for week
`2026-W08`. -/
theorem c5_witness :
    ∃ out, weekly_plan_to_by_date "2026-W08".toList (Json.arr []) = some out ∧
      out.length = 7 ∧
      out.map DayOut.day = dayToOffset.map Prod.fst ∧
      out.map DayOut.date =
        [739663, 739663 + 1, 739663 + 2, 739663 + 3, 739663 + 4, 739663 + 5,
         739663 + 6] ∧
      (∀ e ∈ out, e.blocks = (lastDayBlocks [] e.day).getD (Json.arr [])) :=
  c5_seven_day_expansion "2026-W08".toList (Json.arr []) 739663 []
    (by decide) (by decide) (by decide) (by decide) (by decide)

/-- C9: when several plan items carry the same recognized weekday name, the
expanded view uses the (`or []`-defaulted) blocks of the last such item;
earlier duplicates are silently discarded. -/
theorem c9_duplicate_day_last_wins :
    ∀ (week_id : List Char) (plan : Json) (start : Int) (items : List Json)
      (day : List Char) (lastItem : Json) (out : List DayOut) (e : DayOut),
      week_start_resolve week_id = some start →
      1 ≤ start → start + 6 ≤ 3652059 →
      pyIterList plan = some items →
      items.all itemOk = true →
      (items.filter (fun it => itemDay it = some day)).getLast? = some lastItem →
      weekly_plan_to_by_date week_id plan = some out →
      e ∈ out → e.day = day →
      e.blocks = itemBlocks lastItem := by
  intro week_id plan start items day lastItem out e hres h1 h6 hiter hok hlast hout he hed
  have hc := weekly_plan_to_by_date_closed week_id plan start items hres h1 h6 hiter hok
  rw [hout] at hc
  have houteq := Option.some.inj hc
  subst houteq
  simp only [dayToOffset, List.map, List.mem_cons, List.not_mem_nil, or_false] at he
  rcases he with he | he | he | he | he | he | he <;>
    (subst he
     dsimp only at hed ⊢
     rw [hed]
     simp [lastDayBlocks, hlast])

/-- Witness instantiating `c9_duplicate_day_last_wins` on a plan with two
Monday entries: the second entry's blocks win. -/
theorem c9_witness :
    (⟨"Monday".toList, 739663, Json.str "second".toList⟩ : DayOut).blocks =
      itemBlocks (Json.obj [(dayKey, Json.str "Monday".toList),
        (blocksKey, Json.str "second".toList)]) :=
  c9_duplicate_day_last_wins "2026-W08".toList
    (Json.arr [Json.obj [(dayKey, Json.str "Monday".toList),
        (blocksKey, Json.str "first".toList)],
      Json.obj [(dayKey, Json.str "Monday".toList),
        (blocksKey, Json.str "second".toList)]])
    739663
    [Json.obj [(dayKey, Json.str "Monday".toList),
        (blocksKey, Json.str "first".toList)],
      Json.obj [(dayKey, Json.str "Monday".toList),
        (blocksKey, Json.str "second".toList)]]
    "Monday".toList
    (Json.obj [(dayKey, Json.str "Monday".toList),
      (blocksKey, Json.str "second".toList)])
    [⟨"Monday".toList, 739663, Json.str "second".toList⟩,
     ⟨"Tuesday".toList, 739664, Json.arr []⟩,
     ⟨"Wednesday".toList, 739665, Json.arr []⟩,
     ⟨"Thursday".toList, 739666, Json.arr []⟩,
     ⟨"Friday".toList, 739667, Json.arr []⟩,
     ⟨"Saturday".toList, 739668, Json.arr []⟩,
     ⟨"Sunday".toList, 739669, Json.arr []⟩]
    ⟨"Monday".toList, 739663, Json.str "second".toList⟩
    (by decide) (by decide) (by decide) (by decide) (by decide) (by decide)
    (by decide) (by decide) (by decide)

/-- Witness instantiating the general clause of `c4_iso_week_roundtrip` at
2026-02-20. -/
theorem c4_witness :
    week_start_resolve (current_week_id 2026 2 20) =
      some (ymd2ord 2026 2 20 - (ymd2ord 2026 2 20 + 6) % 7) :=
  (c4_iso_week_roundtrip.1 2026 2 20 (by decide)).1

/-- C10: the recovery parser is total and structured — for every input
string it returns a value: the empty-response error dictionary on empty
input, the parsed JSON value when the recovered text parses, and otherwise
the malformed-response error dictionary carrying the raw original text;
no input raises. -/
theorem c10_parser_totality (text : List Char) :
    (text = [] ∧ safe_parse_json text = emptyRespErr) ∨
    (text ≠ [] ∧ ∃ j, jsonLoads (recoverText text) = some j ∧ safe_parse_json text = j) ∨
    (text ≠ [] ∧ jsonLoads (recoverText text) = none ∧
      safe_parse_json text = malformedErr text) := by
  by_cases h : text = []
  · left
    exact ⟨h, by subst h; rfl⟩
  · have hne : text.isEmpty = false := by
      cases text with
      | nil => exact absurd rfl h
      | cons c r => rfl
    cases hj : jsonLoads (recoverText text) with
    | some j =>
      right; left
      refine ⟨h, j, rfl, ?_⟩
      unfold safe_parse_json
      rw [if_neg (by rw [hne]; exact Bool.false_ne_true), hj]
    | none =>
      right; right
      refine ⟨h, rfl, ?_⟩
      unfold safe_parse_json
      rw [if_neg (by rw [hne]; exact Bool.false_ne_true), hj]

/-- C7: every non-empty oracle response whose recovered text does not parse
as JSON yields the structured malformed-response error dictionary — the
`MalformedOracleResponse` kind with the raw original text preserved under
`"raw"` — never an uncaught fault; in particular the braceless text
`"I cannot help with that."`. -/
theorem c7_malformed_fallback :
    (∀ text : List Char, text ≠ [] → jsonLoads (recoverText text) = none →
      safe_parse_json text = malformedErr text) ∧
    safe_parse_json "I cannot help with that.".toList =
      malformedErr "I cannot help with that.".toList := by
  constructor
  · intro text h hj
    have hne : text.isEmpty = false := by
      cases text with
      | nil => exact absurd rfl h
      | cons c r => rfl
    unfold safe_parse_json
    rw [if_neg (by rw [hne]; exact Bool.false_ne_true), hj]
  · decide

/-- Witness instantiating `c7_malformed_fallback` on a concrete non-JSON
response. -/
theorem c7_witness :
    safe_parse_json "no json here".toList = malformedErr "no json here".toList :=
  c7_malformed_fallback.1 "no json here".toList (by decide) (by decide)

/-! ## Handler lemmas -/

theorem safe_parse_json_fail (text : List Char) (h : text ≠ [])
    (hj : jsonLoads (recoverText text) = none) :
    safe_parse_json text = malformedErr text := by
  have hne : text.isEmpty = false := by
    cases text with
    | nil => exact absurd rfl h
    | cons c r => rfl
  unfold safe_parse_json
  rw [if_neg (by rw [hne]; exact Bool.false_ne_true), hj]

theorem safe_parse_json_ok (text : List Char) (j : Json) (h : text ≠ [])
    (hj : jsonLoads (recoverText text) = some j) :
    safe_parse_json text = j := by
  have hne : text.isEmpty = false := by
    cases text with
    | nil => exact absurd rfl h
    | cons c r => rfl
  unfold safe_parse_json
  rw [if_neg (by rw [hne]; exact Bool.false_ne_true), hj]

/-- C3: commit postcondition of a successful merge, for both handlers.  With
version `v`, task list `T`, a non-empty extracted list `N`, and a scheduling
response parsing to a dict whose `"weekly_plan"` is `L`, the stored document
afterwards has `version = v + 1`, `tasks = T ++ N` (plain concatenation, so
the length grows by `N.length` and nothing is deduplicated), and
`weekly_plan` exactly `L`, with one audit event appended. -/
theorem c3_commit_postcondition :
    (∀ (oracle : List Char → Option (List Char)) (user_id : List Char) (doc : WeekDoc)
       (pending now : List Char) (pkvs : List (List Char × Json)) (ns : List Json)
       (resp : List Char) (ukvs : List (List Char × Json)) (L : Json)
       (v0 : List DayOut),
      weekly_plan_to_by_date doc.week_id doc.weekly_plan = some v0 →
      pending ≠ [] →
      jsonLoads pending = some (Json.obj pkvs) →
      (assocLast pkvs tasksKey).getD (Json.arr []) = Json.arr ns →
      ns ≠ [] →
      oracle (build_update_week_prompt doc.weekly_plan (doc.tasks ++ ns) (Json.arr ns)) =
        some resp →
      safe_parse_json resp = Json.obj ukvs →
      assocLast ukvs weeklyPlanKey = some L →
      (doc.tasks ++ ns).length = doc.tasks.length + ns.length ∧
      ∃ pretty, ui_confirm_add oracle user_id doc pending now =
        some ⟨{ doc with
                tasks := doc.tasks ++ ns
                weekly_plan := L
                version := doc.version + 1
                updated_at := now },
              [mergeEvent "ui_add_to_week".toList user_id doc.week_id (Json.arr ns) ukvs now],
              pretty⟩) ∧
    (∀ (oracle : List Char → Option (List Char)) (user_id payload_text : List Char)
       (doc : WeekDoc) (now : List Char) (ekvs : List (List Char × Json))
       (ns : List Json) (resp1 resp2 : List Char) (ukvs : List (List Char × Json))
       (L : Json),
      pyStrip payload_text ≠ [] →
      oracle (build_extract_prompt (pyStrip payload_text)) = some resp1 →
      safe_parse_json resp1 = Json.obj ekvs →
      assocLast ekvs tasksKey = some (Json.arr ns) →
      ns ≠ [] →
      oracle (build_update_week_prompt doc.weekly_plan (doc.tasks ++ ns) (Json.arr ns)) =
        some resp2 →
      safe_parse_json resp2 = Json.obj ukvs →
      assocLast ukvs weeklyPlanKey = some L →
      (doc.tasks ++ ns).length = doc.tasks.length + ns.length ∧
      api_weekly_add_text oracle user_id payload_text doc now =
        ⟨{ doc with
           tasks := doc.tasks ++ ns
           weekly_plan := L
           version := doc.version + 1
           updated_at := now },
         [mergeEvent "api_add_text".toList user_id doc.week_id (Json.arr ns) ukvs now],
         some (apiSuccessBody
           { doc with
             tasks := doc.tasks ++ ns
             weekly_plan := L
             version := doc.version + 1
             updated_at := now } ukvs)⟩) := by
  constructor
  · intro oracle user_id doc pending now pkvs ns resp ukvs L v0
      hrender hpne hpend htasks hns horacle hresp hL
    refine ⟨List.length_append _ _, ?_⟩
    have hpe : pending.isEmpty = false := by
      cases pending with
      | nil => exact absurd rfl hpne
      | cons c r => rfl
    unfold ui_confirm_add
    rw [hrender]
    dsimp only
    rw [if_neg (by rw [hpe]; exact Bool.false_ne_true), hpend]
    dsimp only
    rw [htasks]
    dsimp only
    rw [if_neg (by simp [hns]), horacle]
    dsimp only
    rw [hresp]
    dsimp only
    rw [hL]
    dsimp only [Option.getD]
    cases hr2 : weekly_plan_to_by_date doc.week_id L with
    | none => exact ⟨excErr, rfl⟩
    | some v2 => exact ⟨_, rfl⟩
  · intro oracle user_id payload_text doc now ekvs ns resp1 resp2 ukvs L
      htne hex hexp htasks hns hor hresp hL
    refine ⟨List.length_append _ _, ?_⟩
    have hpe : (pyStrip payload_text).isEmpty = false := by
      cases h : pyStrip payload_text with
      | nil => exact absurd h htne
      | cons c r => rfl
    unfold api_weekly_add_text
    rw [if_neg (by rw [hpe]; exact Bool.false_ne_true), hex]
    dsimp only
    rw [hexp]
    dsimp only
    rw [htasks]
    dsimp only [Option.getD]
    rw [if_pos (by
      simp only [Json.truthy]
      cases ns with
      | nil => exact absurd rfl hns
      | cons a l => simp)]
    dsimp only
    rw [hor]
    dsimp only
    rw [hresp]
    dsimp only
    rw [hL]

theorem assocLast_none (kvs : List (List Char × Json)) (k : List Char)
    (h : ∀ p ∈ kvs, p.1 ≠ k) : assocLast kvs k = none := by
  induction kvs with
  | nil => rfl
  | cons p rest ih =>
    obtain ⟨k0, v0⟩ := p
    rw [assocLast, ih (fun q hq => h q (by simp [hq]))]
    exact if_neg (h (k0, v0) (by simp))

/-- Witness instantiating both clauses of `c3_commit_postcondition`. -/
theorem c3_witness :
    ((([] : List Json) ++ [Json.obj [("title".toList, Json.str "x".toList)]]).length =
      ([] : List Json).length + [Json.obj [("title".toList, Json.str "x".toList)]].length ∧
     ∃ pretty, ui_confirm_add
        (fun _ => some "\x7b\"weekly_plan\":[],\"changes\":[],\"conflicts\":[]\x7d".toList)
        "default".toList
        ⟨"default".toList, "2026-W08".toList, 0, [], Json.arr [], "t0".toList⟩
        "\x7b\"tasks\":[\x7b\"title\":\"x\"\x7d]\x7d".toList "t1".toList =
      some ⟨{ (⟨"default".toList, "2026-W08".toList, 0, [], Json.arr [], "t0".toList⟩ : WeekDoc) with
              tasks := ([] : List Json) ++ [Json.obj [("title".toList, Json.str "x".toList)]]
              weekly_plan := Json.arr []
              version := (0 : Int) + 1
              updated_at := "t1".toList },
            [mergeEvent "ui_add_to_week".toList "default".toList "2026-W08".toList
              (Json.arr [Json.obj [("title".toList, Json.str "x".toList)]])
              [(weeklyPlanKey, Json.arr []), (changesKey, Json.arr []),
               (conflictsKey, Json.arr [])] "t1".toList],
            pretty⟩) :=
  c3_commit_postcondition.1
    (fun _ => some "\x7b\"weekly_plan\":[],\"changes\":[],\"conflicts\":[]\x7d".toList)
    "default".toList
    ⟨"default".toList, "2026-W08".toList, 0, [], Json.arr [], "t0".toList⟩
    "\x7b\"tasks\":[\x7b\"title\":\"x\"\x7d]\x7d".toList "t1".toList
    [("tasks".toList, Json.arr [Json.obj [("title".toList, Json.str "x".toList)]])]
    [Json.obj [("title".toList, Json.str "x".toList)]]
    "\x7b\"weekly_plan\":[],\"changes\":[],\"conflicts\":[]\x7d".toList
    [(weeklyPlanKey, Json.arr []), (changesKey, Json.arr []), (conflictsKey, Json.arr [])]
    (Json.arr [])
    [⟨"Monday".toList, 739663, Json.arr []⟩, ⟨"Tuesday".toList, 739664, Json.arr []⟩,
     ⟨"Wednesday".toList, 739665, Json.arr []⟩, ⟨"Thursday".toList, 739666, Json.arr []⟩,
     ⟨"Friday".toList, 739667, Json.arr []⟩, ⟨"Saturday".toList, 739668, Json.arr []⟩,
     ⟨"Sunday".toList, 739669, Json.arr []⟩]
    (by decide) (by decide) (by decide) (by decide) (by decide) (by decide)
    (by decide) (by decide)

/-- C1 (corrected): after a successful extraction, a scheduling-oracle
*transport* failure indeed aborts without mutation and without an event, in
both handlers; but a `MalformedOracleResponse` does **not** abort: the error
dictionary produced by `safe_parse_json` is itself a dict, so both handlers
commit anyway — tasks concatenated, `weekly_plan` wiped to `[]` (the error
dict has no `"weekly_plan"` key), version incremented, and one event
logged. -/
theorem c1_scheduling_failure :
    (∀ (oracle : List Char → Option (List Char)) (user_id : List Char) (doc : WeekDoc)
       (pending now : List Char) (pkvs : List (List Char × Json)) (ns : List Json)
       (v0 : List DayOut),
      weekly_plan_to_by_date doc.week_id doc.weekly_plan = some v0 →
      pending ≠ [] →
      jsonLoads pending = some (Json.obj pkvs) →
      (assocLast pkvs tasksKey).getD (Json.arr []) = Json.arr ns →
      ns ≠ [] →
      oracle (build_update_week_prompt doc.weekly_plan (doc.tasks ++ ns) (Json.arr ns)) =
        none →
      ui_confirm_add oracle user_id doc pending now = some ⟨doc, [], excErr⟩) ∧
    (∀ (oracle : List Char → Option (List Char)) (user_id : List Char) (doc : WeekDoc)
       (pending now : List Char) (pkvs : List (List Char × Json)) (ns : List Json)
       (resp : List Char) (v0 : List DayOut),
      weekly_plan_to_by_date doc.week_id doc.weekly_plan = some v0 →
      pending ≠ [] →
      jsonLoads pending = some (Json.obj pkvs) →
      (assocLast pkvs tasksKey).getD (Json.arr []) = Json.arr ns →
      ns ≠ [] →
      oracle (build_update_week_prompt doc.weekly_plan (doc.tasks ++ ns) (Json.arr ns)) =
        some resp →
      resp ≠ [] →
      jsonLoads (recoverText resp) = none →
      ∃ pretty, ui_confirm_add oracle user_id doc pending now =
        some ⟨{ doc with
                tasks := doc.tasks ++ ns
                weekly_plan := Json.arr []
                version := doc.version + 1
                updated_at := now },
              [mergeEvent "ui_add_to_week".toList user_id doc.week_id (Json.arr ns)
                [(errorKey, Json.str "Model did not return valid JSON".toList),
                 (rawKey, Json.str resp)] now],
              pretty⟩) ∧
    (∀ (oracle : List Char → Option (List Char)) (user_id payload_text : List Char)
       (doc : WeekDoc) (now : List Char) (ekvs : List (List Char × Json))
       (ns : List Json) (resp1 : List Char),
      pyStrip payload_text ≠ [] →
      oracle (build_extract_prompt (pyStrip payload_text)) = some resp1 →
      safe_parse_json resp1 = Json.obj ekvs →
      assocLast ekvs tasksKey = some (Json.arr ns) →
      ns ≠ [] →
      oracle (build_update_week_prompt doc.weekly_plan (doc.tasks ++ ns) (Json.arr ns)) =
        none →
      api_weekly_add_text oracle user_id payload_text doc now = ⟨doc, [], none⟩) ∧
    (∀ (oracle : List Char → Option (List Char)) (user_id payload_text : List Char)
       (doc : WeekDoc) (now : List Char) (ekvs : List (List Char × Json))
       (ns : List Json) (resp1 resp2 : List Char),
      pyStrip payload_text ≠ [] →
      oracle (build_extract_prompt (pyStrip payload_text)) = some resp1 →
      safe_parse_json resp1 = Json.obj ekvs →
      assocLast ekvs tasksKey = some (Json.arr ns) →
      ns ≠ [] →
      oracle (build_update_week_prompt doc.weekly_plan (doc.tasks ++ ns) (Json.arr ns)) =
        some resp2 →
      resp2 ≠ [] →
      jsonLoads (recoverText resp2) = none →
      api_weekly_add_text oracle user_id payload_text doc now =
        ⟨{ doc with
           tasks := doc.tasks ++ ns
           weekly_plan := Json.arr []
           version := doc.version + 1
           updated_at := now },
         [mergeEvent "api_add_text".toList user_id doc.week_id (Json.arr ns)
           [(errorKey, Json.str "Model did not return valid JSON".toList),
            (rawKey, Json.str resp2)] now],
         some (apiSuccessBody
           { doc with
             tasks := doc.tasks ++ ns
             weekly_plan := Json.arr []
             version := doc.version + 1
             updated_at := now }
           [(errorKey, Json.str "Model did not return valid JSON".toList),
            (rawKey, Json.str resp2)])⟩) := by
  refine ⟨?_, ?_, ?_, ?_⟩
  · intro oracle user_id doc pending now pkvs ns v0
      hrender hpne hpend htasks hns horacle
    have hpe : pending.isEmpty = false := by
      cases pending with
      | nil => exact absurd rfl hpne
      | cons c r => rfl
    unfold ui_confirm_add
    rw [hrender]
    dsimp only
    rw [if_neg (by rw [hpe]; exact Bool.false_ne_true), hpend]
    dsimp only
    rw [htasks]
    dsimp only
    rw [if_neg (by simp [hns]), horacle]
  · intro oracle user_id doc pending now pkvs ns resp v0
      hrender hpne hpend htasks hns horacle hrne hjl
    have hpe : pending.isEmpty = false := by
      cases pending with
      | nil => exact absurd rfl hpne
      | cons c r => rfl
    have hwk : assocLast [(errorKey, Json.str "Model did not return valid JSON".toList),
        (rawKey, Json.str resp)] weeklyPlanKey = none := by
      apply assocLast_none
      intro p hp
      rcases List.mem_cons.mp hp with h | hp2
      · subst h; decide
      · rcases List.mem_cons.mp hp2 with h | hnil
        · subst h; exact (by decide : rawKey ≠ weeklyPlanKey)
        · exact absurd hnil (List.not_mem_nil p)
    unfold ui_confirm_add
    rw [hrender]
    dsimp only
    rw [if_neg (by rw [hpe]; exact Bool.false_ne_true), hpend]
    dsimp only
    rw [htasks]
    dsimp only
    rw [if_neg (by simp [hns]), horacle]
    dsimp only
    rw [safe_parse_json_fail resp hrne hjl, malformedErr]
    dsimp only
    rw [hwk]
    dsimp only [Option.getD]
    cases hr2 : weekly_plan_to_by_date doc.week_id (Json.arr []) with
    | none => exact ⟨excErr, rfl⟩
    | some v2 => exact ⟨_, rfl⟩
  · intro oracle user_id payload_text doc now ekvs ns resp1
      htne hex hexp htasks hns hor
    have hpe : (pyStrip payload_text).isEmpty = false := by
      cases h : pyStrip payload_text with
      | nil => exact absurd h htne
      | cons c r => rfl
    unfold api_weekly_add_text
    rw [if_neg (by rw [hpe]; exact Bool.false_ne_true), hex]
    dsimp only
    rw [hexp]
    dsimp only
    rw [htasks]
    dsimp only [Option.getD]
    rw [if_pos (by
      simp only [Json.truthy]
      cases ns with
      | nil => exact absurd rfl hns
      | cons a l => simp)]
    dsimp only
    rw [hor]
  · intro oracle user_id payload_text doc now ekvs ns resp1 resp2
      htne hex hexp htasks hns hor hrne hjl
    have hpe : (pyStrip payload_text).isEmpty = false := by
      cases h : pyStrip payload_text with
      | nil => exact absurd h htne
      | cons c r => rfl
    have hwk : assocLast [(errorKey, Json.str "Model did not return valid JSON".toList),
        (rawKey, Json.str resp2)] weeklyPlanKey = none := by
      apply assocLast_none
      intro p hp
      rcases List.mem_cons.mp hp with h | hp2
      · subst h; decide
      · rcases List.mem_cons.mp hp2 with h | hnil
        · subst h; exact (by decide : rawKey ≠ weeklyPlanKey)
        · exact absurd hnil (List.not_mem_nil p)
    unfold api_weekly_add_text
    rw [if_neg (by rw [hpe]; exact Bool.false_ne_true), hex]
    dsimp only
    rw [hexp]
    dsimp only
    rw [htasks]
    dsimp only [Option.getD]
    rw [if_pos (by
      simp only [Json.truthy]
      cases ns with
      | nil => exact absurd rfl hns
      | cons a l => simp)]
    dsimp only
    rw [hor]
    dsimp only
    rw [safe_parse_json_fail resp2 hrne hjl, malformedErr]
    dsimp only
    rw [hwk]

/-- C1 counterexample to the claim as stated: with the scheduling oracle
answering the non-JSON text "I cannot help with that.", `confirm_add` still
commits — version goes 0 to 1, the previously non-empty `weekly_plan` is
replaced by `[]`, and one event is logged. -/
theorem c1_counterexample :
    (ui_confirm_add (fun _ => some "I cannot help with that.".toList)
        "default".toList
        ⟨"default".toList, "2026-W08".toList, 0, [],
         Json.arr [Json.obj [(dayKey, Json.str "Monday".toList),
                             (blocksKey, Json.arr [Json.str "old".toList])]],
         "t0".toList⟩
        "\x7b\"tasks\":[\x7b\"title\":\"x\"\x7d]\x7d".toList "t1".toList).map
      (fun r => (r.doc.version, r.doc.weekly_plan, r.events.length)) =
      some ((1 : Int), Json.arr [], 1) := by decide

/-- Witness instantiating the malformed-response clause of
`c1_scheduling_failure` at a concrete run. -/
theorem c1_witness :
    ∃ pretty, ui_confirm_add (fun _ => some "I cannot help with that.".toList)
        "default".toList
        ⟨"default".toList, "2026-W08".toList, 0, [], Json.arr [], "t0".toList⟩
        "\x7b\"tasks\":[\x7b\"title\":\"x\"\x7d]\x7d".toList "t1".toList =
      some ⟨{ (⟨"default".toList, "2026-W08".toList, 0, [], Json.arr [], "t0".toList⟩ : WeekDoc) with
              tasks := ([] : List Json) ++ [Json.obj [("title".toList, Json.str "x".toList)]]
              weekly_plan := Json.arr []
              version := (0 : Int) + 1
              updated_at := "t1".toList },
            [mergeEvent "ui_add_to_week".toList "default".toList "2026-W08".toList
              (Json.arr [Json.obj [("title".toList, Json.str "x".toList)]])
              [(errorKey, Json.str "Model did not return valid JSON".toList),
               (rawKey, Json.str "I cannot help with that.".toList)] "t1".toList],
            pretty⟩ :=
  c1_scheduling_failure.2.1
    (fun _ => some "I cannot help with that.".toList)
    "default".toList
    ⟨"default".toList, "2026-W08".toList, 0, [], Json.arr [], "t0".toList⟩
    "\x7b\"tasks\":[\x7b\"title\":\"x\"\x7d]\x7d".toList "t1".toList
    [("tasks".toList, Json.arr [Json.obj [("title".toList, Json.str "x".toList)]])]
    [Json.obj [("title".toList, Json.str "x".toList)]]
    "I cannot help with that.".toList
    [⟨"Monday".toList, 739663, Json.arr []⟩, ⟨"Tuesday".toList, 739664, Json.arr []⟩,
     ⟨"Wednesday".toList, 739665, Json.arr []⟩, ⟨"Thursday".toList, 739666, Json.arr []⟩,
     ⟨"Friday".toList, 739667, Json.arr []⟩, ⟨"Saturday".toList, 739668, Json.arr []⟩,
     ⟨"Sunday".toList, 739669, Json.arr []⟩]
    (by decide) (by decide) (by decide) (by decide) (by decide) (by decide)
    (by decide) (by decide)

/-- C2 (corrected): the empty-extraction guard exists only in the UI
handler.  There, an extracted collection that is the empty list, or any
non-list value, aborts with the "Extracted task list is empty." result and
no mutation or event.  The API route `api_weekly_add_text` has no such
check: an extraction whose `"tasks"` value is falsy proceeds with zero new
tasks and still commits — tasks unchanged, `weekly_plan` replaced, version
incremented, and an event logged. -/
theorem c2_empty_extraction :
    (∀ (oracle : List Char → Option (List Char)) (user_id : List Char) (doc : WeekDoc)
       (pending now : List Char) (pkvs : List (List Char × Json)) (v0 : List DayOut),
      weekly_plan_to_by_date doc.week_id doc.weekly_plan = some v0 →
      pending ≠ [] →
      jsonLoads pending = some (Json.obj pkvs) →
      (assocLast pkvs tasksKey).getD (Json.arr []) = Json.arr [] →
      ui_confirm_add oracle user_id doc pending now = some ⟨doc, [], emptyListErr⟩) ∧
    (∀ (oracle : List Char → Option (List Char)) (user_id : List Char) (doc : WeekDoc)
       (pending now : List Char) (pkvs : List (List Char × Json)) (v : Json)
       (v0 : List DayOut),
      weekly_plan_to_by_date doc.week_id doc.weekly_plan = some v0 →
      pending ≠ [] →
      jsonLoads pending = some (Json.obj pkvs) →
      (assocLast pkvs tasksKey).getD (Json.arr []) = v →
      (∀ xs, v ≠ Json.arr xs) →
      ui_confirm_add oracle user_id doc pending now = some ⟨doc, [], emptyListErr⟩) ∧
    (∀ (oracle : List Char → Option (List Char)) (user_id payload_text : List Char)
       (doc : WeekDoc) (now : List Char) (ekvs : List (List Char × Json))
       (resp1 resp2 : List Char) (ukvs : List (List Char × Json)) (L : Json),
      pyStrip payload_text ≠ [] →
      oracle (build_extract_prompt (pyStrip payload_text)) = some resp1 →
      safe_parse_json resp1 = Json.obj ekvs →
      ((assocLast ekvs tasksKey).getD (Json.arr [])).truthy = false →
      oracle (build_update_week_prompt doc.weekly_plan (doc.tasks ++ []) (Json.arr [])) =
        some resp2 →
      safe_parse_json resp2 = Json.obj ukvs →
      assocLast ukvs weeklyPlanKey = some L →
      api_weekly_add_text oracle user_id payload_text doc now =
        ⟨{ doc with
           tasks := doc.tasks ++ []
           weekly_plan := L
           version := doc.version + 1
           updated_at := now },
         [mergeEvent "api_add_text".toList user_id doc.week_id (Json.arr []) ukvs now],
         some (apiSuccessBody
           { doc with
             tasks := doc.tasks ++ []
             weekly_plan := L
             version := doc.version + 1
             updated_at := now } ukvs)⟩) := by
  refine ⟨?_, ?_, ?_⟩
  · intro oracle user_id doc pending now pkvs v0 hrender hpne hpend htasks
    have hpe : pending.isEmpty = false := by
      cases pending with
      | nil => exact absurd rfl hpne
      | cons c r => rfl
    unfold ui_confirm_add
    rw [hrender]
    dsimp only
    rw [if_neg (by rw [hpe]; exact Bool.false_ne_true), hpend]
    dsimp only
    rw [htasks]
    rfl
  · intro oracle user_id doc pending now pkvs v v0 hrender hpne hpend htasks hv
    have hpe : pending.isEmpty = false := by
      cases pending with
      | nil => exact absurd rfl hpne
      | cons c r => rfl
    unfold ui_confirm_add
    rw [hrender]
    dsimp only
    rw [if_neg (by rw [hpe]; exact Bool.false_ne_true), hpend]
    dsimp only
    rw [htasks]
    cases v with
    | arr xs => exact absurd rfl (hv xs)
    | null => rfl
    | bool b => rfl
    | num n => rfl
    | str s => rfl
    | obj kvs => rfl
  · intro oracle user_id payload_text doc now ekvs resp1 resp2 ukvs L
      htne hex hexp htruthy hor hresp hL
    have hpe : (pyStrip payload_text).isEmpty = false := by
      cases h : pyStrip payload_text with
      | nil => exact absurd h htne
      | cons c r => rfl
    unfold api_weekly_add_text
    rw [if_neg (by rw [hpe]; exact Bool.false_ne_true), hex]
    dsimp only
    rw [hexp]
    dsimp only
    rw [if_neg (by rw [htruthy]; exact Bool.false_ne_true)]
    dsimp only
    rw [hor]
    dsimp only
    rw [hresp]
    dsimp only
    rw [hL]
    rfl

/-- C2 counterexample to the claim as stated: an API merge whose extraction
yields zero tasks still mutates the store — version goes 0 to 1 and one
event is logged. -/
theorem c2_counterexample :
    (fun r => (r.doc.version, r.events.length))
      (api_weekly_add_text
        (fun _ => some "\x7b\"tasks\":[],\"weekly_plan\":[],\"changes\":[],\"conflicts\":[]\x7d".toList)
        "default".toList "plan my week".toList
        ⟨"default".toList, "2026-W08".toList, 0, [], Json.arr [], "t0".toList⟩
        "t1".toList) = ((1 : Int), 1) := by decide

/-- Witness instantiating the UI empty-list clause of
`c2_empty_extraction` at a concrete run. -/
theorem c2_witness :
    ui_confirm_add (fun _ => none) "default".toList
        ⟨"default".toList, "2026-W08".toList, 0, [], Json.arr [], "t0".toList⟩
        "\x7b\"tasks\":[]\x7d".toList "t1".toList =
      some ⟨⟨"default".toList, "2026-W08".toList, 0, [], Json.arr [], "t0".toList⟩,
            [], emptyListErr⟩ :=
  c2_empty_extraction.1 (fun _ => none) "default".toList
    ⟨"default".toList, "2026-W08".toList, 0, [], Json.arr [], "t0".toList⟩
    "\x7b\"tasks\":[]\x7d".toList "t1".toList
    [("tasks".toList, Json.arr [])]
    [⟨"Monday".toList, 739663, Json.arr []⟩, ⟨"Tuesday".toList, 739664, Json.arr []⟩,
     ⟨"Wednesday".toList, 739665, Json.arr []⟩, ⟨"Thursday".toList, 739666, Json.arr []⟩,
     ⟨"Friday".toList, 739667, Json.arr []⟩, ⟨"Saturday".toList, 739668, Json.arr []⟩,
     ⟨"Sunday".toList, 739669, Json.arr []⟩]
    (by decide) (by decide) (by decide) (by decide)

/-! ## JSON round-trip lemmas (for the recovery heuristic) -/

theorem digitVal?_digitChar (d : Nat) (h : d < 10) :
    digitVal? (digitChar d) = some d := by
  interval_cases d <;> decide

theorem takeDigitsAcc_append (ds : List Char)
    (h : ∀ c ∈ ds, 48 ≤ c.toNat ∧ c.toNat ≤ 57) :
    ∀ acc rest, numStop rest = true →
      takeDigitsAcc acc (ds ++ rest) =
        (ds.foldl (fun a c => 10 * a + (c.toNat - 48)) acc, rest) := by
  induction ds with
  | nil =>
    intro acc rest hstop
    cases rest with
    | nil => rfl
    | cons c r =>
      have hdv : digitVal? c = none := by
        simp only [numStop, Option.isNone_iff_eq_none] at hstop
        exact hstop
      simp [takeDigitsAcc, hdv]
  | cons c ds' ih =>
    intro acc rest hstop
    have hc := h c (by simp)
    have hdv : digitVal? c = some (c.toNat - 48) := by
      unfold digitVal?
      rw [if_pos ⟨hc.1, hc.2⟩]
    rw [List.cons_append, takeDigitsAcc, hdv]
    dsimp only
    rw [ih (fun x hx => h x (by simp [hx])) _ rest hstop]
    rfl

theorem natDigits_head (n : Nat) (hn : 0 < n) :
    ∃ d ds, natDigits n = digitChar d :: ds ∧ 1 ≤ d ∧ d < 10 ∧
      (∀ c ∈ ds, 48 ≤ c.toNat ∧ c.toNat ≤ 57) := by
  induction n using Nat.strong_induction_on with
  | _ n ih =>
    by_cases h : n < 10
    · exact ⟨n, [], natDigits_of_lt n h, hn, h, by simp⟩
    · obtain ⟨d, ds', hds', h1, h10, hall⟩ :=
        ih (n / 10) (Nat.div_lt_self (by omega) (by omega)) (by omega)
      refine ⟨d, ds' ++ [digitChar (n % 10)], ?_, h1, h10, ?_⟩
      · rw [natDigits_decompose n h, hds']
        rfl
      · intro c hc
        rcases List.mem_append.mp hc with hc | hc
        · exact hall c hc
        · simp at hc
          subst hc
          rw [digitChar_toNat (n % 10) (by omega)]
          omega

theorem parseNatNum_natDigits (n : Nat) (rest : List Char)
    (hstop : numStop rest = true) :
    parseNatNum (natDigits n ++ rest) = some (n, rest) := by
  by_cases h : n < 10
  · rw [natDigits_of_lt n h, List.cons_append, List.nil_append]
    rw [parseNatNum.eq_def]
    dsimp only
    rw [digitVal?_digitChar n h]
    dsimp only
    by_cases h0 : n = 0
    · subst h0
      rw [if_pos rfl]
      cases rest with
      | nil => rfl
      | cons c2 r =>
        have hdv : digitVal? c2 = none := by
          simp only [numStop, Option.isNone_iff_eq_none] at hstop
          exact hstop
        simp [hdv]
    · rw [if_neg h0]
      have hrun := takeDigitsAcc_append [] (by simp) n rest hstop
      rw [List.nil_append] at hrun
      rw [hrun]
      rfl
  · obtain ⟨d, ds, hds, h1, h10, hall⟩ := natDigits_head n (by omega)
    rw [hds, List.cons_append, parseNatNum.eq_def]
    dsimp only
    rw [digitVal?_digitChar d h10]
    dsimp only
    rw [if_neg (by omega)]
    rw [takeDigitsAcc_append ds hall d rest hstop]
    have hfold := natDigits_foldl n 0
    rw [hds] at hfold
    simp only [List.foldl, digitChar_toNat d h10] at hfold
    have hd : 10 * 0 + (48 + d - 48) = d := by omega
    rw [hd] at hfold
    simp at hfold
    rw [hfold]

theorem intDec_head (i : Int) :
    ∃ c cs, intDec i = c :: cs ∧ 45 ≤ c.toNat ∧ c.toNat ≤ 57 := by
  unfold intDec
  by_cases h : i < 0
  · rw [if_pos h]
    exact ⟨'-', natDigits (-i).toNat, rfl, by decide, by decide⟩
  · rw [if_neg h]
    rcases hne : natDigits i.toNat with _ | ⟨c, cs⟩
    · exact absurd hne (natDigits_ne_nil _)
    · have hc := natDigits_all_digits i.toNat c (by rw [hne]; simp)
      exact ⟨c, cs, rfl, by omega, hc.2⟩

theorem parseNumber_intDec (i : Int) (rest : List Char)
    (hstop : numStop rest = true) :
    parseNumber (intDec i ++ rest) = some (Json.num i, rest) := by
  by_cases h : i < 0
  · have hd : intDec i = '-' :: natDigits (-i).toNat := by
      unfold intDec
      rw [if_pos h]
    rw [hd, List.cons_append]
    unfold parseNumber
    split
    · rename_i rest' heq
      injection heq with h1 h2
      subst h2
      rw [parseNatNum_natDigits (-i).toNat rest hstop]
      dsimp only [Option.map]
      have hcast : -(((-i).toNat : Int)) = i := by omega
      rw [hcast]
    · rename_i hnomatch
      exact absurd rfl (hnomatch (natDigits (-i).toNat ++ rest))
  · have hd : intDec i = natDigits i.toNat := by
      unfold intDec
      rw [if_neg h]
    rcases hne : natDigits i.toNat with _ | ⟨c, cs⟩
    · exact absurd hne (natDigits_ne_nil _)
    have hc := natDigits_all_digits i.toNat c (by rw [hne]; simp)
    rw [hd, hne, List.cons_append]
    unfold parseNumber
    have hcm : c ≠ '-' := by
      intro e
      subst e
      exact absurd hc.1 (by decide)
    split
    · rename_i rest' heq
      exact absurd (List.cons.inj heq).1 hcm
    · rw [← List.cons_append, ← hne, parseNatNum_natDigits i.toNat rest hstop]
      dsimp only [Option.map]
      have hcast : ((i.toNat : Int)) = i := by omega
      rw [hcast]

theorem parseStringBody_escape (s : List Char) (hwf : ∀ c ∈ s, 32 ≤ c.toNat) :
    ∀ rest, parseStringBody (escapeStr s ++ '"' :: rest) = some (s, rest) := by
  induction s with
  | nil =>
    intro rest
    have he : escapeStr [] = [] := rfl
    rw [he, List.nil_append, parseStringBody.eq_def]
    dsimp only
    rw [if_pos rfl]
  | cons c cs ih =>
    intro rest
    have hc := hwf c (by simp)
    have hcs : ∀ x ∈ cs, 32 ≤ x.toNat := fun x hx => hwf x (by simp [hx])
    have he : escapeStr (c :: cs) =
        (if c = '"' then ['\\', '"']
         else if c = '\\' then ['\\', '\\'] else [c]) ++ escapeStr cs := by
      simp [escapeStr]
    by_cases hq : c = '"'
    · subst hq
      rw [he, if_pos rfl]
      simp only [List.cons_append, List.nil_append]
      rw [parseStringBody.eq_def]
      dsimp only
      rw [if_neg (by decide), if_pos rfl]
      rw [show escChar? '"' = some '"' from by decide]
      dsimp only
      rw [ih hcs rest]
    · by_cases hb : c = '\\'
      · subst hb
        rw [he, if_neg (by decide), if_pos rfl]
        simp only [List.cons_append, List.nil_append]
        rw [parseStringBody.eq_def]
        dsimp only
        rw [if_neg (by decide), if_pos rfl]
        rw [show escChar? '\\' = some '\\' from by decide]
        dsimp only
        rw [ih hcs rest]
      · rw [he, if_neg hq, if_neg hb]
        simp only [List.cons_append, List.nil_append]
        rw [parseStringBody.eq_def]
        dsimp only
        rw [if_neg hq, if_neg hb, if_neg (by omega)]
        rw [ih hcs rest]

theorem skipWs_cons (c : Char) (l : List Char) (h : isJsonWs c = false) :
    skipWs (c :: l) = c :: l := by
  simp [skipWs, List.dropWhile, h]

theorem jweight_pos (j : Json) : 1 ≤ jweight j := by
  cases j <;> simp [jweight] <;> omega

theorem jweightMembers_pos (kvs : List (List Char × Json)) (h : kvs ≠ []) :
    1 ≤ jweightMembers kvs := by
  cases kvs with
  | nil => exact absurd rfl h
  | cons p r =>
    obtain ⟨k, v⟩ := p
    simp [jweightMembers]
    omega

theorem jweightElems_pos (xs : List Json) (h : xs ≠ []) :
    1 ≤ jweightElems xs := by
  cases xs with
  | nil => exact absurd rfl h
  | cons x r =>
    simp [jweightElems]
    omega

theorem char_facts_num (c : Char) (h1 : 45 ≤ c.toNat) (h2 : c.toNat ≤ 57) :
    isJsonWs c = false ∧ c ≠ '\x7b' ∧ c ≠ '[' ∧ c ≠ '"' ∧
    c ≠ 't' ∧ c ≠ 'f' ∧ c ≠ 'n' ∧ c ≠ ']' ∧ c ≠ '\x7d' := by
  refine ⟨?_, ?_, ?_, ?_, ?_, ?_, ?_, ?_, ?_⟩
  · simp only [isJsonWs, Bool.or_eq_false_iff, decide_eq_false_iff_not]
    refine ⟨⟨⟨fun e => ?_, fun e => ?_⟩, fun e => ?_⟩, fun e => ?_⟩ <;>
      (subst e; exact absurd h1 (by decide))
  · exact fun e => by subst e; exact absurd h2 (by decide)
  · exact fun e => by subst e; exact absurd h2 (by decide)
  · exact fun e => by subst e; exact absurd h1 (by decide)
  · exact fun e => by subst e; exact absurd h2 (by decide)
  · exact fun e => by subst e; exact absurd h2 (by decide)
  · exact fun e => by subst e; exact absurd h2 (by decide)
  · exact fun e => by subst e; exact absurd h2 (by decide)
  · exact fun e => by subst e; exact absurd h2 (by decide)

theorem serialize_head (j : Json) :
    ∃ c cs, serialize j = c :: cs ∧ isJsonWs c = false ∧ c ≠ ']' ∧ c ≠ '\x7d' := by
  cases j with
  | num n =>
    obtain ⟨c, cs, hd, h1, h2⟩ := intDec_head n
    obtain ⟨hws, _, _, _, _, _, _, hrb, hrc⟩ := char_facts_num c h1 h2
    exact ⟨c, cs, by simp [serialize, hd], hws, hrb, hrc⟩
  | bool b =>
    cases b
    · refine ⟨'f', _, rfl, ?_, ?_, ?_⟩ <;> decide
    · refine ⟨'t', _, rfl, ?_, ?_, ?_⟩ <;> decide
  | null => refine ⟨'n', _, rfl, ?_, ?_, ?_⟩ <;> decide
  | str s => refine ⟨'"', _, rfl, ?_, ?_, ?_⟩ <;> decide
  | arr xs => refine ⟨'[', _, rfl, ?_, ?_, ?_⟩ <;> decide
  | obj kvs => refine ⟨'\x7b', _, rfl, ?_, ?_, ?_⟩ <;> decide

theorem numStop_cons (c : Char) (l : List Char) (h : digitVal? c = none) :
    numStop (c :: l) = true := by
  simp [numStop, h]

theorem serializeElems_decomp (x : Json) (xs : List Json) :
    ∃ tail, serializeElems (x :: xs) = serialize x ++ tail := by
  cases xs with
  | nil => exact ⟨[], by simp [serializeElems]⟩
  | cons y ys => exact ⟨',' :: serializeElems (y :: ys), by simp [serializeElems]⟩

theorem serializeMembers_head (p : List Char × Json) (kvs : List (List Char × Json)) :
    ∃ tail, serializeMembers (p :: kvs) = '"' :: tail := by
  obtain ⟨k, v⟩ := p
  cases kvs with
  | nil => exact ⟨escapeStr k ++ '"' :: ':' :: serialize v, by simp [serializeMembers]⟩
  | cons q r =>
    exact ⟨(escapeStr k ++ '"' :: ':' :: serialize v) ++ ',' :: serializeMembers (q :: r),
      by simp [serializeMembers]⟩

theorem parse_serialize : ∀ fuel : Nat,
    (∀ j rest, Json.wfb j = true → jweight j ≤ fuel → numStop rest = true →
      parseValue fuel (serialize j ++ rest) = some (j, rest)) ∧
    (∀ kvs rest, kvs ≠ [] → Json.wfbMembers kvs = true → jweightMembers kvs ≤ fuel →
      parseMembers fuel (serializeMembers kvs ++ '\x7d' :: rest) = some (kvs, rest)) ∧
    (∀ xs rest, xs ≠ [] → Json.wfbElems xs = true → jweightElems xs ≤ fuel →
      parseElems fuel (serializeElems xs ++ ']' :: rest) = some (xs, rest)) := by
  intro fuel
  induction fuel using Nat.strong_induction_on with
  | _ fuel ih =>
    cases fuel with
    | zero =>
      refine ⟨fun j rest _ hw _ => absurd hw (by have := jweight_pos j; omega),
              fun kvs rest hne _ hw =>
                absurd hw (by have := jweightMembers_pos kvs hne; omega),
              fun xs rest hne _ hw =>
                absurd hw (by have := jweightElems_pos xs hne; omega)⟩
    | succ fuel =>
      obtain ⟨IHV, IHM, IHE⟩ := ih fuel (by omega)
      refine ⟨?_, ?_, ?_⟩
      · intro j rest hwf hw hstop
        cases j with
        | null =>
          rw [show serialize Json.null ++ rest = 'n' :: 'u' :: 'l' :: 'l' ::rest from rfl]
          rw [parseValue]
          simp [skipWs, List.dropWhile, isJsonWs, List.isPrefixOf]
        | bool b =>
          cases b with
          | true =>
            rw [show serialize (Json.bool true) ++ rest = 't' :: 'r' :: 'u' :: 'e' ::rest from rfl]
            rw [parseValue]
            simp [skipWs, List.dropWhile, isJsonWs, List.isPrefixOf]
          | false =>
            rw [show serialize (Json.bool false) ++ rest =
                  'f' :: 'a' :: 'l' :: 's' :: 'e' ::rest from rfl]
            rw [parseValue]
            simp [skipWs, List.dropWhile, isJsonWs, List.isPrefixOf]
        | num n =>
          obtain ⟨c, cs, hd, h45, h57⟩ := intDec_head n
          obtain ⟨hcws, hbr, hbk, hq, ht, hf, hn, _, _⟩ := char_facts_num c h45 h57
          have htb : (('t' : Char) == c) = false := by
            rw [beq_eq_false_iff_ne]
            exact fun e => ht e.symm
          have hfb : (('f' : Char) == c) = false := by
            rw [beq_eq_false_iff_ne]
            exact fun e => hf e.symm
          have hnb : (('n' : Char) == c) = false := by
            rw [beq_eq_false_iff_ne]
            exact fun e => hn e.symm
          rw [show serialize (Json.num n) = intDec n from rfl, hd, List.cons_append]
          rw [parseValue]
          rw [skipWs_cons c _ hcws]
          dsimp only
          rw [if_neg hbr, if_neg hbk, if_neg hq]
          rw [if_neg (show ¬(['t','r','u','e'].isPrefixOf (c :: (cs ++ rest)) = true) from by
                simp [List.isPrefixOf, htb])]
          rw [if_neg (show ¬(['f','a','l','s','e'].isPrefixOf (c :: (cs ++ rest)) = true) from by
                simp [List.isPrefixOf, hfb])]
          rw [if_neg (show ¬(['n','u','l','l'].isPrefixOf (c :: (cs ++ rest)) = true) from by
                simp [List.isPrefixOf, hnb])]
          rw [← List.cons_append, ← hd]
          exact parseNumber_intDec n rest hstop
        | str s =>
          have hsws : ∀ c ∈ s, 32 ≤ c.toNat := by
            have h := hwf
            simp only [Json.wfb, List.all_eq_true, decide_eq_true_eq] at h
            exact h
          rw [show serialize (Json.str s) ++ rest =
                '"' :: (escapeStr s ++ '"' :: rest) from by
              rw [show serialize (Json.str s) = '"' :: (escapeStr s ++ ['"']) from rfl]
              simp]
          rw [parseValue]
          rw [skipWs_cons _ _ (by decide)]
          dsimp only
          rw [if_neg (by decide), if_neg (by decide), if_pos rfl]
          rw [parseStringBody_escape s hsws rest]
          rfl
        | arr xs =>
          cases xs with
          | nil =>
            rw [show serialize (Json.arr []) ++ rest = '[' :: ']' ::rest from rfl]
            rw [parseValue]
            rfl
          | cons x xs' =>
            have hwE : Json.wfbElems (x :: xs') = true := hwf
            have hwt : jweightElems (x :: xs') ≤ fuel := by
              have h := hw
              simp only [jweight] at h
              omega
            obtain ⟨tail, hT⟩ := serializeElems_decomp x xs'
            obtain ⟨c, cs, hsx, hcws, hrb, _⟩ := serialize_head x
            have hE : serializeElems (x :: xs') ++ ']' :: rest =
                c :: (cs ++ (tail ++ ']' :: rest)) := by
              rw [hT, hsx]
              simp
            rw [show serialize (Json.arr (x :: xs')) ++ rest =
                  '[' :: (serializeElems (x :: xs') ++ ']' :: rest) from by
                rw [show serialize (Json.arr (x :: xs')) =
                      '[' :: (serializeElems (x :: xs') ++ [']']) from rfl]
                simp]
            rw [parseValue]
            rw [skipWs_cons _ _ (by decide)]
            dsimp only
            rw [if_neg (by decide), if_pos rfl]
            rw [hE, skipWs_cons _ _ hcws]
            split
            · rename_i r2 heq
              injection heq with h1 h2
              exact absurd h1 hrb
            · rw [← hE, IHE (x :: xs') rest (by simp) hwE hwt]
              rfl
        | obj kvs =>
          cases kvs with
          | nil =>
            rw [show serialize (Json.obj []) ++ rest = '\x7b' :: '\x7d' ::rest from rfl]
            rw [parseValue]
            rfl
          | cons p kvs' =>
            have hwM : Json.wfbMembers (p :: kvs') = true := hwf
            have hwt : jweightMembers (p :: kvs') ≤ fuel := by
              have h := hw
              simp only [jweight] at h
              omega
            obtain ⟨tail, hT⟩ := serializeMembers_head p kvs'
            have hE : serializeMembers (p :: kvs') ++ '\x7d' :: rest =
                '"' :: (tail ++ '\x7d' :: rest) := by
              rw [hT]
              simp
            rw [show serialize (Json.obj (p :: kvs')) ++ rest =
                  '\x7b' :: (serializeMembers (p :: kvs') ++ '\x7d' :: rest) from by
                rw [show serialize (Json.obj (p :: kvs')) =
                      '\x7b' :: (serializeMembers (p :: kvs') ++ ['\x7d']) from rfl]
                simp]
            rw [parseValue]
            rw [skipWs_cons _ _ (by decide)]
            dsimp only
            rw [if_pos rfl]
            rw [hE, skipWs_cons _ _ (by decide)]
            split
            · rename_i r2 heq
              injection heq with h1 h2
              exact absurd h1 (by decide)
            · rw [← hE, IHM (p :: kvs') rest (by simp) hwM hwt]
              rfl
      · intro kvs rest hne hwf hw
        cases kvs with
        | nil => exact absurd rfl hne
        | cons p kvs' =>
          obtain ⟨k, v⟩ := p
          have hparts : (∀ c ∈ k, 32 ≤ c.toNat) ∧ Json.wfb v = true ∧
              Json.wfbMembers kvs' = true := by
            have h := hwf
            simp only [Json.wfbMembers, Bool.and_eq_true, List.all_eq_true,
              decide_eq_true_eq] at h
            exact ⟨h.1.1, h.1.2, h.2⟩
          have hwtv : jweight v ≤ fuel := by
            have h := hw
            simp only [jweightMembers] at h
            omega
          have hwtm : jweightMembers kvs' ≤ fuel := by
            have h := hw
            simp only [jweightMembers] at h
            omega
          cases kvs' with
          | nil =>
            rw [show serializeMembers [(k, v)] ++ '\x7d' :: rest =
                  '"' :: (escapeStr k ++ '"' :: ':' :: (serialize v ++ '\x7d' :: rest)) from by
                rw [show serializeMembers [(k, v)] =
                      '"' :: (escapeStr k ++ '"' :: ':' :: serialize v) from by
                    simp [serializeMembers]]
                simp]
            rw [parseMembers]
            rw [parseStringBody_escape k hparts.1 _]
            dsimp only
            rw [skipWs_cons _ _ (by decide)]
            split
            · rename_i r2 heq
              injection heq with g1 g2
              subst g2
              rw [IHV v ('\x7d' :: rest) hparts.2.1 hwtv (numStop_cons _ _ (by decide))]
              dsimp only
              rw [skipWs_cons _ _ (by decide)]
              split
              · rename_i r4 heq3
                injection heq3 with f1 f2
                exact absurd f1 (by decide)
              · rename_i r4 heq3
                injection heq3 with f1 f2
                subst f2
                rfl
              · rename_i hn1 hn2
                exact absurd rfl (hn2 rest)
            · rename_i hno
              exact absurd rfl (hno _)
          | cons q kvs'' =>
            obtain ⟨tail, hT⟩ := serializeMembers_head q kvs''
            rw [show serializeMembers ((k, v) :: q :: kvs'') ++ '\x7d' :: rest =
                  '"' :: (escapeStr k ++ '"' :: ':' ::
                    (serialize v ++ ',' ::
                      (serializeMembers (q :: kvs'') ++ '\x7d' :: rest))) from by
                rw [show serializeMembers ((k, v) :: q :: kvs'') =
                      ('"' :: (escapeStr k ++ '"' :: ':' :: serialize v)) ++
                        ',' :: serializeMembers (q :: kvs'') from by
                    simp [serializeMembers]]
                simp]
            rw [parseMembers]
            rw [parseStringBody_escape k hparts.1 _]
            dsimp only
            rw [skipWs_cons _ _ (by decide)]
            split
            · rename_i r2 heq
              injection heq with g1 g2
              subst g2
              rw [IHV v (',' :: (serializeMembers (q :: kvs'') ++ '\x7d' :: rest))
                hparts.2.1 hwtv (numStop_cons _ _ (by decide))]
              dsimp only
              rw [skipWs_cons _ _ (by decide)]
              split
              · rename_i r4 heq3
                injection heq3 with f1 f2
                subst f2
                rw [hT, List.cons_append, skipWs_cons _ _ (by decide),
                  ← List.cons_append, ← hT]
                rw [IHM (q :: kvs'') rest (by simp) hparts.2.2 hwtm]
                rfl
              · rename_i r4 heq3
                injection heq3 with f1 f2
                exact absurd f1 (by decide)
              · rename_i hn1 hn2
                exact absurd rfl (hn1 _)
            · rename_i hno
              exact absurd rfl (hno _)
      · intro xs rest hne hwf hw
        cases xs with
        | nil => exact absurd rfl hne
        | cons x xs' =>
          have hparts : Json.wfb x = true ∧ Json.wfbElems xs' = true := by
            have h := hwf
            simp only [Json.wfbElems, Bool.and_eq_true] at h
            exact h
          have hwtx : jweight x ≤ fuel := by
            have h := hw
            simp only [jweightElems] at h
            omega
          have hwte : jweightElems xs' ≤ fuel := by
            have h := hw
            simp only [jweightElems] at h
            omega
          cases xs' with
          | nil =>
            rw [show serializeElems [x] = serialize x from by simp [serializeElems]]
            rw [parseElems]
            rw [IHV x (']' :: rest) hparts.1 hwtx (numStop_cons _ _ (by decide))]
            dsimp only
            rw [skipWs_cons _ _ (by decide)]
            split
            · rename_i r2 heq
              injection heq with h1 h2
              exact absurd h1 (by decide)
            · rename_i r2 heq
              injection heq with h1 h2
              subst h2
              rfl
            · rename_i hn1 hn2
              exact absurd rfl (hn2 rest)
          | cons y ys =>
            rw [show serializeElems (x :: y :: ys) ++ ']' :: rest =
                  serialize x ++ ',' :: (serializeElems (y :: ys) ++ ']' :: rest) from by
                rw [show serializeElems (x :: y :: ys) =
                      serialize x ++ ',' :: serializeElems (y :: ys) from by
                    simp [serializeElems]]
                simp]
            rw [parseElems]
            rw [IHV x (',' :: (serializeElems (y :: ys) ++ ']' :: rest))
              hparts.1 hwtx (numStop_cons _ _ (by decide))]
            dsimp only
            rw [skipWs_cons _ _ (by decide)]
            split
            · rename_i r2 heq
              injection heq with h1 h2
              subst h2
              rw [IHE (y :: ys) rest (by simp) hparts.2 hwte]
              rfl
            · rename_i r2 heq
              injection heq with h1 h2
              exact absurd h1 (by decide)
            · rename_i hn1 hn2
              exact absurd rfl (hn1 _)

theorem jweight_le_length : ∀ n : Nat,
    (∀ j, jweight j ≤ n → jweight j ≤ (serialize j).length) ∧
    (∀ kvs, jweightMembers kvs ≤ n →
      jweightMembers kvs ≤ (serializeMembers kvs).length + 1) ∧
    (∀ xs, jweightElems xs ≤ n →
      jweightElems xs ≤ (serializeElems xs).length + 1) := by
  intro n
  induction n using Nat.strong_induction_on with
  | _ n ih =>
    cases n with
    | zero =>
      refine ⟨fun j h => absurd h (by have := jweight_pos j; omega), ?_, ?_⟩
      · intro kvs h
        cases kvs with
        | nil => simp [jweightMembers]
        | cons p r => exact absurd h (by have := jweightMembers_pos (p :: r) (by simp); omega)
      · intro xs h
        cases xs with
        | nil => simp [jweightElems]
        | cons x r => exact absurd h (by have := jweightElems_pos (x :: r) (by simp); omega)
    | succ n =>
      obtain ⟨IV, IM, IE⟩ := ih n (by omega)
      refine ⟨?_, ?_, ?_⟩
      · intro j hw
        cases j with
        | null => simp [jweight, serialize]
        | bool b => cases b <;> simp [jweight, serialize]
        | num m =>
          obtain ⟨c, cs, hd, _, _⟩ := intDec_head m
          simp [jweight, serialize, hd]
        | str s => simp [jweight, serialize]
        | arr xs =>
          have hxs := IE xs (by simp only [jweight] at hw; omega)
          simp only [jweight, serialize, List.length_cons, List.length_append,
            List.length_singleton]
          omega
        | obj kvs =>
          have hkvs := IM kvs (by simp only [jweight] at hw; omega)
          simp only [jweight, serialize, List.length_cons, List.length_append,
            List.length_singleton]
          omega
      · intro kvs hw
        cases kvs with
        | nil => simp [jweightMembers]
        | cons p kvs' =>
          obtain ⟨k, v⟩ := p
          simp only [jweightMembers] at hw
          have hv := IV v (by omega)
          cases kvs' with
          | nil =>
            simp only [jweightMembers, serializeMembers, List.length_cons,
              List.length_append]
            omega
          | cons q kvs'' =>
            have hm := IM (q :: kvs'') (by simp only [jweightMembers] at hw ⊢; omega)
            simp only [jweightMembers, serializeMembers, List.length_cons,
              List.length_append] at hm ⊢
            omega
      · intro xs hw
        cases xs with
        | nil => simp [jweightElems]
        | cons x xs' =>
          simp only [jweightElems] at hw
          have hx := IV x (by omega)
          cases xs' with
          | nil =>
            simp only [jweightElems, serializeElems]
            omega
          | cons y ys =>
            have he := IE (y :: ys) (by simp only [jweightElems] at hw ⊢; omega)
            simp only [jweightElems, serializeElems, List.length_cons,
              List.length_append] at he ⊢
            omega

theorem jsonLoads_serialize (j : Json) (hwf : Json.wfb j = true) :
    jsonLoads (serialize j) = some j := by
  have hle : jweight j ≤ (serialize j).length :=
    (jweight_le_length (jweight j)).1 j le_rfl
  have hp := (parse_serialize ((serialize j).length + 1)).1 j [] hwf (by omega) rfl
  rw [List.append_nil] at hp
  unfold jsonLoads
  rw [hp]
  rfl

theorem dropWhile_append_stop (q : Char → Bool) (p : List Char) (c : Char)
    (r : List Char) (hc : q c = false) :
    (p ++ c :: r).dropWhile q = p.dropWhile q ++ c :: r := by
  induction p with
  | nil => simp [List.dropWhile_cons, hc]
  | cons a p' ihp =>
    by_cases ha : q a
    · simp [List.dropWhile_cons, ha, ihp]
    · simp [List.dropWhile_cons, ha]

theorem dropWhile_append_all (q : Char → Bool) (A : List Char)
    (hA : ∀ a ∈ A, q a = true) (B : List Char) :
    (A ++ B).dropWhile q = B.dropWhile q := by
  induction A with
  | nil => rfl
  | cons a A' ihA =>
    simp [List.dropWhile_cons, hA a (by simp)]
    exact ihA (fun x hx => hA x (by simp [hx]))

theorem dropTrail_run (q : Char → Bool) (w : List Char) (c : Char) (ds : List Char)
    (hds : ∀ d ∈ ds, q d = true) (hc : q c = false) :
    dropTrail q (w ++ c :: ds) = w ++ [c] := by
  unfold dropTrail
  rw [show (w ++ c :: ds).reverse = ds.reverse ++ c :: w.reverse from by simp]
  rw [dropWhile_append_all q ds.reverse (fun d hd => hds d (List.mem_reverse.mp hd)) _]
  simp [List.dropWhile_cons, hc]

theorem dropTrail_append_stop (q : Char → Bool) (w : List Char) (c : Char)
    (p : List Char) (hc : q c = false) :
    dropTrail q ((w ++ [c]) ++ p) = (w ++ [c]) ++ dropTrail q p := by
  unfold dropTrail
  rw [show ((w ++ [c]) ++ p).reverse = p.reverse ++ c :: w.reverse from by simp]
  rw [dropWhile_append_stop q p.reverse c w.reverse hc]
  simp

theorem replaceFirst_no_sub (pat : List Char) :
    ∀ s, hasSub pat s = false → replaceFirst pat s = s := by
  intro s
  induction s with
  | nil => intro h; rfl
  | cons c r ih =>
    intro h
    rw [hasSub, Bool.or_eq_false_iff] at h
    rw [replaceFirst, if_neg (by rw [h.1]; exact Bool.false_ne_true)]
    rw [ih h.2]

theorem findChar_before (ch : Char) (p : List Char) (hp : ∀ c ∈ p, c ≠ ch)
    (r : List Char) : findChar ch (p ++ ch :: r) = some p.length := by
  induction p with
  | nil => simp [findChar]
  | cons d p' ihp =>
    have hd : d ≠ ch := hp d (by simp)
    rw [List.cons_append, findChar, if_neg hd,
      ihp (fun c hc => hp c (by simp [hc]))]
    rfl

theorem pyStrip_ends (c d : Char) (mid : List Char) (hc : isPySpace c = false)
    (hd : isPySpace d = false) :
    pyStrip (c :: (mid ++ [d])) = c :: (mid ++ [d]) := by
  unfold pyStrip
  rw [List.dropWhile_cons, if_neg (by rw [hc]; exact Bool.false_ne_true)]
  rw [show c :: (mid ++ [d]) = (c :: mid) ++ d :: [] from by simp]
  rw [dropTrail_run isPySpace (c :: mid) d [] (by simp) hd]

theorem recoverText_prose (kvs : List (List Char × Json)) (p1 p2 : List Char)
    (hp1 : ∀ c ∈ p1, c ≠ '\x7b') (hp2 : ∀ c ∈ p2, c ≠ '\x7d')
    (hfence : fenceLit.isPrefixOf
      (pyStrip (p1 ++ serialize (Json.obj kvs) ++ p2)) = false) :
    recoverText (p1 ++ serialize (Json.obj kvs) ++ p2) =
      serialize (Json.obj kvs) := by
  obtain ⟨inner, hser⟩ : ∃ w, serialize (Json.obj kvs) = '\x7b' :: (w ++ ['\x7d']) :=
    ⟨serializeMembers kvs, rfl⟩
  have hP1 : ∀ c ∈ p1.dropWhile isPySpace, c ≠ '\x7b' :=
    fun c hc => hp1 c ((List.dropWhile_sublist _).subset hc)
  have hP2 : ∀ c ∈ dropTrail isPySpace p2, c ≠ '\x7d' := by
    intro c hc
    unfold dropTrail at hc
    exact hp2 c (List.mem_reverse.mp
      ((List.dropWhile_sublist _).subset (List.mem_reverse.mp hc)))
  have hstrip : pyStrip (p1 ++ serialize (Json.obj kvs) ++ p2) =
      p1.dropWhile isPySpace ++ serialize (Json.obj kvs) ++ dropTrail isPySpace p2 := by
    unfold pyStrip
    rw [show p1 ++ serialize (Json.obj kvs) ++ p2 =
          p1 ++ '\x7b' :: ((inner ++ ['\x7d']) ++ p2) from by rw [hser]; simp]
    rw [dropWhile_append_stop isPySpace p1 '\x7b' _ (by decide)]
    rw [show p1.dropWhile isPySpace ++ '\x7b' :: ((inner ++ ['\x7d']) ++ p2) =
          ((p1.dropWhile isPySpace ++ '\x7b' :: inner) ++ ['\x7d']) ++ p2 from by simp]
    rw [dropTrail_append_stop isPySpace
      (p1.dropWhile isPySpace ++ '\x7b' :: inner) '\x7d' p2 (by decide)]
    rw [hser]
    simp
  have hfind : findChar '\x7b'
      (p1.dropWhile isPySpace ++ serialize (Json.obj kvs) ++ dropTrail isPySpace p2) =
      some (p1.dropWhile isPySpace).length := by
    rw [show p1.dropWhile isPySpace ++ serialize (Json.obj kvs) ++ dropTrail isPySpace p2 =
          p1.dropWhile isPySpace ++
            '\x7b' :: ((inner ++ ['\x7d']) ++ dropTrail isPySpace p2) from by
        rw [hser]; simp]
    exact findChar_before '\x7b' _ hP1 _
  have hrfind : rfindChar '\x7d'
      (p1.dropWhile isPySpace ++ serialize (Json.obj kvs) ++ dropTrail isPySpace p2) =
      some ((p1.dropWhile isPySpace).length + inner.length + 1) := by
    unfold rfindChar
    rw [show (p1.dropWhile isPySpace ++ serialize (Json.obj kvs) ++
          dropTrail isPySpace p2).reverse =
          (dropTrail isPySpace p2).reverse ++
            '\x7d' :: (inner.reverse ++ '\x7b' :: (p1.dropWhile isPySpace).reverse)
        from by rw [hser]; simp]
    rw [findChar_before '\x7d' _ (fun c hc => hP2 c (List.mem_reverse.mp hc)) _]
    dsimp only [Option.map]
    congr 1
    rw [hser]
    simp [List.length_append, List.length_cons, List.length_reverse]
    omega
  unfold recoverText
  dsimp only
  rw [hstrip] at hfence ⊢
  rw [if_neg (by rw [hfence]; exact Bool.false_ne_true)]
  rw [hfind, hrfind]
  dsimp only
  rw [if_pos (by omega)]
  unfold pySlice
  rw [List.append_assoc, List.drop_left]
  rw [show (p1.dropWhile isPySpace).length + inner.length + 1 + 1 -
        (p1.dropWhile isPySpace).length = (serialize (Json.obj kvs)).length from by
      rw [hser]; simp [List.length_append, List.length_cons]; omega]
  exact List.take_left _ _

theorem pyStrip_nl_obj (kvs : List (List Char × Json)) :
    pyStrip ('\n' :: (serialize (Json.obj kvs) ++ ['\n'])) =
      serialize (Json.obj kvs) := by
  obtain ⟨inner, hser⟩ : ∃ w, serialize (Json.obj kvs) = '\x7b' :: (w ++ ['\x7d']) :=
    ⟨serializeMembers kvs, rfl⟩
  unfold pyStrip
  rw [List.dropWhile_cons, if_pos (show isPySpace '\n' = true from by decide)]
  rw [show serialize (Json.obj kvs) ++ ['\n'] =
        '\x7b' :: ((inner ++ ['\x7d']) ++ ['\n']) from by rw [hser]; simp]
  rw [List.dropWhile_cons, if_neg (by decide)]
  rw [show '\x7b' :: ((inner ++ ['\x7d']) ++ ['\n']) =
        ('\x7b' :: inner) ++ '\x7d' :: ['\n'] from by simp]
  rw [dropTrail_run isPySpace ('\x7b' :: inner) '\x7d' ['\n'] (by decide) (by decide)]
  rw [hser]
  simp

theorem recover_slice_obj (kvs : List (List Char × Json)) :
    (match findChar '\x7b' (serialize (Json.obj kvs)),
           rfindChar '\x7d' (serialize (Json.obj kvs)) with
     | some s, some e =>
       if s < e then pySlice (serialize (Json.obj kvs)) s (e + 1)
       else serialize (Json.obj kvs)
     | _, _ => serialize (Json.obj kvs)) = serialize (Json.obj kvs) := by
  obtain ⟨inner, hser⟩ : ∃ w, serialize (Json.obj kvs) = '\x7b' :: (w ++ ['\x7d']) :=
    ⟨serializeMembers kvs, rfl⟩
  have hfind : findChar '\x7b' (serialize (Json.obj kvs)) = some 0 := by
    rw [hser]
    simp [findChar]
  have hrfind : rfindChar '\x7d' (serialize (Json.obj kvs)) =
      some (inner.length + 1) := by
    unfold rfindChar
    rw [show (serialize (Json.obj kvs)).reverse =
          '\x7d' :: (inner.reverse ++ ['\x7b']) from by rw [hser]; simp]
    rw [show findChar '\x7d' ('\x7d' :: (inner.reverse ++ ['\x7b'])) = some 0 from by
        simp [findChar]]
    dsimp only [Option.map]
    congr 1
    rw [hser]
    simp [List.length_append, List.length_cons]
  rw [hfind, hrfind]
  dsimp only
  rw [if_pos (by omega)]
  unfold pySlice
  rw [List.drop_zero]
  rw [show inner.length + 1 + 1 - 0 = (serialize (Json.obj kvs)).length from by
      rw [hser]; simp [List.length_append, List.length_cons]]
  exact List.take_length _

theorem recoverText_fenceTag (kvs : List (List Char × Json)) :
    recoverText (fenceLit ++ 'j' :: 's' :: 'o' :: 'n' :: '\n' ::
        (serialize (Json.obj kvs) ++ '\n' :: fenceLit)) =
      serialize (Json.obj kvs) := by
  have hshape : fenceLit ++ 'j' :: 's' :: 'o' :: 'n' :: '\n' ::
      (serialize (Json.obj kvs) ++ '\n' :: fenceLit) =
      btChar :: ((btChar :: btChar :: 'j' :: 's' :: 'o' :: 'n' :: '\n' ::
        (serialize (Json.obj kvs) ++ ['\n', btChar, btChar])) ++ [btChar]) := by
    simp [fenceLit]
  have ht0 : pyStrip (fenceLit ++ 'j' :: 's' :: 'o' :: 'n' :: '\n' ::
      (serialize (Json.obj kvs) ++ '\n' :: fenceLit)) =
      fenceLit ++ 'j' :: 's' :: 'o' :: 'n' :: '\n' ::
        (serialize (Json.obj kvs) ++ '\n' :: fenceLit) := by
    rw [hshape]
    exact pyStrip_ends btChar btChar _ (by decide) (by decide)
  have hBT : stripBT (fenceLit ++ 'j' :: 's' :: 'o' :: 'n' :: '\n' ::
      (serialize (Json.obj kvs) ++ '\n' :: fenceLit)) =
      'j' :: 's' :: 'o' :: 'n' :: '\n' :: (serialize (Json.obj kvs) ++ ['\n']) := by
    unfold stripBT
    rw [dropWhile_append_all _ fenceLit (by decide) _]
    rw [List.dropWhile_cons, if_neg (by decide)]
    rw [show 'j' :: 's' :: 'o' :: 'n' :: '\n' ::
          (serialize (Json.obj kvs) ++ '\n' :: fenceLit) =
          ('j' :: 's' :: 'o' :: 'n' :: '\n' :: serialize (Json.obj kvs)) ++
            '\n' :: fenceLit from by simp]
    rw [dropTrail_run _ _ '\n' fenceLit (by decide) (by decide)]
    simp
  have hrep : replaceFirst jsonLit
      ('j' :: 's' :: 'o' :: 'n' :: '\n' :: (serialize (Json.obj kvs) ++ ['\n'])) =
      '\n' :: (serialize (Json.obj kvs) ++ ['\n']) := by
    rw [replaceFirst]
    rw [if_pos (show jsonLit.isPrefixOf ('j' :: 's' :: 'o' :: 'n' :: '\n' ::
          (serialize (Json.obj kvs) ++ ['\n'])) = true from by
        simp [jsonLit, List.isPrefixOf])]
    rfl
  unfold recoverText
  dsimp only
  rw [ht0]
  rw [if_pos (show fenceLit.isPrefixOf (fenceLit ++ 'j' :: 's' :: 'o' :: 'n' :: '\n' ::
        (serialize (Json.obj kvs) ++ '\n' :: fenceLit)) = true from by
      rw [List.isPrefixOf_iff_prefix]
      exact List.prefix_append _ _)]
  rw [hBT, hrep, pyStrip_nl_obj kvs]
  exact recover_slice_obj kvs

theorem recoverText_fenceNoTag (kvs : List (List Char × Json))
    (hns : hasSub jsonLit ('\n' :: (serialize (Json.obj kvs) ++ ['\n'])) = false) :
    recoverText (fenceLit ++ '\n' :: (serialize (Json.obj kvs) ++ '\n' :: fenceLit)) =
      serialize (Json.obj kvs) := by
  have hshape : fenceLit ++ '\n' :: (serialize (Json.obj kvs) ++ '\n' :: fenceLit) =
      btChar :: ((btChar :: btChar :: '\n' ::
        (serialize (Json.obj kvs) ++ ['\n', btChar, btChar])) ++ [btChar]) := by
    simp [fenceLit]
  have ht0 : pyStrip (fenceLit ++ '\n' ::
      (serialize (Json.obj kvs) ++ '\n' :: fenceLit)) =
      fenceLit ++ '\n' :: (serialize (Json.obj kvs) ++ '\n' :: fenceLit) := by
    rw [hshape]
    exact pyStrip_ends btChar btChar _ (by decide) (by decide)
  have hBT : stripBT (fenceLit ++ '\n' ::
      (serialize (Json.obj kvs) ++ '\n' :: fenceLit)) =
      '\n' :: (serialize (Json.obj kvs) ++ ['\n']) := by
    unfold stripBT
    rw [dropWhile_append_all _ fenceLit (by decide) _]
    rw [List.dropWhile_cons, if_neg (by decide)]
    rw [show '\n' :: (serialize (Json.obj kvs) ++ '\n' :: fenceLit) =
          ('\n' :: serialize (Json.obj kvs)) ++ '\n' :: fenceLit from by simp]
    rw [dropTrail_run _ _ '\n' fenceLit (by decide) (by decide)]
    simp
  unfold recoverText
  dsimp only
  rw [ht0]
  rw [if_pos (show fenceLit.isPrefixOf (fenceLit ++ '\n' ::
        (serialize (Json.obj kvs) ++ '\n' :: fenceLit)) = true from by
      rw [List.isPrefixOf_iff_prefix]
      exact List.prefix_append _ _)]
  rw [hBT, replaceFirst_no_sub jsonLit _ hns, pyStrip_nl_obj kvs]
  exact recover_slice_obj kvs

/-- C6 (corrected): the recovery heuristic is exact on a serialized JSON
object wrapped in prose or a fence only under side conditions the claim
omits.  (1) Prose form: recovery is exact provided the leading prose
contains no brace-open, the trailing prose no brace-close, and the stripped
text does not begin with a fence (the prose may freely contain the word
json).  (2) A fence tagged with the language tag json is always recovered
exactly.  (3) An untagged fence is recovered exactly only when the fenced
content does not contain the substring json — otherwise
Python str.replace deletes four payload characters.  (4) The concrete
example of the claim holds. -/
theorem c6_json_recovery :
    (∀ (kvs : List (List Char × Json)) (p1 p2 : List Char),
      Json.wfb (Json.obj kvs) = true →
      (∀ c ∈ p1, c ≠ '\x7b') →
      (∀ c ∈ p2, c ≠ '\x7d') →
      fenceLit.isPrefixOf (pyStrip (p1 ++ serialize (Json.obj kvs) ++ p2)) = false →
      safe_parse_json (p1 ++ serialize (Json.obj kvs) ++ p2) = Json.obj kvs) ∧
    (∀ kvs : List (List Char × Json), Json.wfb (Json.obj kvs) = true →
      safe_parse_json (fenceLit ++ 'j' :: 's' :: 'o' :: 'n' :: '\n' ::
        (serialize (Json.obj kvs) ++ '\n' :: fenceLit)) = Json.obj kvs) ∧
    (∀ kvs : List (List Char × Json), Json.wfb (Json.obj kvs) = true →
      hasSub jsonLit ('\n' :: (serialize (Json.obj kvs) ++ ['\n'])) = false →
      safe_parse_json (fenceLit ++ '\n' ::
        (serialize (Json.obj kvs) ++ '\n' :: fenceLit)) = Json.obj kvs) ∧
    safe_parse_json
        "Here is the JSON:\n\x60\x60\x60json\n\x7b\"tasks\":[\x7b\"title\":\"x\"\x7d]\x7d\n\x60\x60\x60\nHope that helps!".toList =
      Json.obj [("tasks".toList,
        Json.arr [Json.obj [("title".toList, Json.str "x".toList)]])] := by
  refine ⟨?_, ?_, ?_, by decide⟩
  · intro kvs p1 p2 hwf hp1 hp2 hfence
    have hne : p1 ++ serialize (Json.obj kvs) ++ p2 ≠ [] := by
      intro h
      obtain ⟨inner, hser⟩ :
          ∃ w, serialize (Json.obj kvs) = '\x7b' :: (w ++ ['\x7d']) :=
        ⟨serializeMembers kvs, rfl⟩
      have hlen := congrArg List.length h
      rw [hser] at hlen
      simp at hlen
    apply safe_parse_json_ok _ _ hne
    rw [recoverText_prose kvs p1 p2 hp1 hp2 hfence]
    exact jsonLoads_serialize _ hwf
  · intro kvs hwf
    have hne : fenceLit ++ 'j' :: 's' :: 'o' :: 'n' :: '\n' ::
        (serialize (Json.obj kvs) ++ '\n' :: fenceLit) ≠ [] := by
      simp [fenceLit]
    apply safe_parse_json_ok _ _ hne
    rw [recoverText_fenceTag kvs]
    exact jsonLoads_serialize _ hwf
  · intro kvs hwf hns
    have hne : fenceLit ++ '\n' ::
        (serialize (Json.obj kvs) ++ '\n' :: fenceLit) ≠ [] := by
      simp [fenceLit]
    apply safe_parse_json_ok _ _ hne
    rw [recoverText_fenceNoTag kvs hns]
    exact jsonLoads_serialize _ hwf

/-- C6 counterexample to the claim as stated: the untagged-fence wrapping of
the serialized object with the single key json is not recovered exactly —
the replace step deletes the four key characters, producing the object with
an empty key instead. -/
theorem c6_counterexample :
    "\x60\x60\x60\n\x7b\"json\":null\x7d\n\x60\x60\x60".toList =
        fenceLit ++ '\n' ::
          (serialize (Json.obj [("json".toList, Json.null)]) ++ '\n' :: fenceLit) ∧
      safe_parse_json "\x60\x60\x60\n\x7b\"json\":null\x7d\n\x60\x60\x60".toList =
        Json.obj [([], Json.null)] ∧
      Json.obj [([], Json.null)] ≠ Json.obj [("json".toList, Json.null)] := by
  refine ⟨by decide, by decide, by decide⟩

/-- Witness instantiating the prose clause of `c6_json_recovery` at a
concrete input. -/
theorem c6_witness :
    safe_parse_json ("Answer: ".toList ++
        serialize (Json.obj [("a".toList, Json.null)]) ++ " ok".toList) =
      Json.obj [("a".toList, Json.null)] :=
  c6_json_recovery.1 [("a".toList, Json.null)] "Answer: ".toList " ok".toList
    (by decide) (by decide) (by decide) (by decide)
